import Mathlib

/-!
Shallow embedding of the point-cloud octree build subsystem
(`PointCloudPlugin/Source/PointCloudRuntime/Private/PointCloudOctree.cpp`).

Modelling conventions:
* `FVector` coordinates are embedded as exact rationals (`ℚ`).  All comparisons
  performed by the code on coordinates are exact comparisons (`>=`, `<=`, `!=`),
  so the control flow is faithfully captured; the concrete numeric scenarios the
  spec mentions (`0.5`, powers of two) are exactly representable in binary
  floating point, so `ℚ` and `double` agree on them.
* Concurrency.  The source fires the 8 root-level subdivisions on a thread
  pool; the mutex `CriticalSection` protects only the reservation marking
  (lines 76-85), the statistics (lines 89-91) and the child linking
  (lines 152-155), while each task's point-filter loop (lines 56-69), including
  its `IsPointUsed` check (line 63), runs unlocked.  Two models are used.  The
  coarse model (`Subdivide`, `Rebuild`) executes the 8 root tasks as atomic
  units in a serialisation order `RootOrder` (a list of octant indices); it
  captures exactly the schedules in which each task's filter runs after the
  previously completed tasks' reservations are applied.  The fine model
  (`fineStep`, `fineRun`, `fineRebuild`) splits each root task into its
  unlocked filter phase and its committing remainder and runs an arbitrary
  interleaving of those phases; on whole-task schedules it coincides with the
  coarse model (`fineRun_serial`), and it exposes the filter/reserve race the
  coarse model cannot express (the C1 counterexample).  Every level below the
  root is sequential in the source (`bUseMultithreading` is true only for the
  root) and is modelled in the fixed source order `0..7`.
* The reservation bitmap `ReservedPoints` is an array of `uint16` fields, one
  per vertex index, modelled as a total function `ℕ → ℕ` whose values are kept
  below `2 ^ 16` by the explicit `% 65536` in `reservationMask`.
* Ghost instrumentation: the build state additionally records `resEvents` (one
  entry per `SetPointUsed` call, tagged with the calling node's path) and
  `usedQueries` (one entry per `IsPointUsed` call made by the point filter).
  The ghost fields never influence the computation.
* A node is identified by its `path`: the list of octant indices from the root
  (root = `[]`); its depth (`GetDepth()`) is the length of its path.
-/

attribute [local semireducible] Rat.mul Rat.add Rat.sub Rat.inv

namespace PCO

/-- Rational stand-in for `FVector`: three exact coordinates. -/
structure V3 where
  x : ℚ
  y : ℚ
  z : ℚ
deriving DecidableEq

instance : Inhabited V3 := ⟨⟨0, 0, 0⟩⟩

/-- Componentwise addition, as in `Origin + BoxExtent`. -/
def V3.add (a b : V3) : V3 := ⟨a.x + b.x, a.y + b.y, a.z + b.z⟩

/-- Componentwise subtraction, as in `Origin - BoxExtent`. -/
def V3.sub (a b : V3) : V3 := ⟨a.x - b.x, a.y - b.y, a.z - b.z⟩

/-- Componentwise product, as in `LocalBounds.BoxExtent * Offset`. -/
def V3.hadamard (a b : V3) : V3 := ⟨a.x * b.x, a.y * b.y, a.z * b.z⟩

/-- Halving, as in `LocalBounds.BoxExtent * 0.5f` (exact in floating point). -/
def V3.half (a : V3) : V3 := ⟨a.x / 2, a.y / 2, a.z / 2⟩

/-- Modelled from the spec: `FVector::GetMax()` of the engine returns the
largest of the three components (used by `Rebuild` for the cubic root extent). -/
def V3.maxComp (a : V3) : ℚ := max a.x (max a.y a.z)

/-- The cubic vector `FVector(m)` built by `Rebuild` from `GetMax()`. -/
def V3.cube (m : ℚ) : V3 := ⟨m, m, m⟩

/-- A point of the cloud, as used by the octree: a location and the stable
`VertexIndex` into the point-cloud asset's vertex buffer. -/
structure FPointCloudPoint where
  Location : V3
  VertexIndex : ℕ
deriving DecidableEq

instance : Inhabited FPointCloudPoint := ⟨⟨default, 0⟩⟩

/-- An axis-aligned box given, as in `FBoxSphereBounds`, by center and half
extent. -/
structure Box where
  Origin : V3
  BoxExtent : V3
deriving DecidableEq

/-- The inclusion test of `Node::Build` (line 60): all six closed-interval
comparisons against `Min = Origin - BoxExtent` and `Max = Origin + BoxExtent`. -/
def pointInBox (Mn Mx p : V3) : Bool :=
  decide (Mn.x ≤ p.x) && decide (p.x ≤ Mx.x) &&
  decide (Mn.y ≤ p.y) && decide (p.y ≤ Mx.y) &&
  decide (Mn.z ≤ p.z) && decide (p.z ≤ Mx.z)

/-- The edge-case test of `Node::Build` (line 63): the point is strictly away
from all six faces (every coordinate differs from `Min` and `Max`). -/
def pointInterior (Mn Mx p : V3) : Bool :=
  decide (p.x ≠ Mn.x) && decide (p.x ≠ Mx.x) &&
  decide (p.y ≠ Mn.y) && decide (p.y ≠ Mx.y) &&
  decide (p.z ≠ Mn.z) && decide (p.z ≠ Mx.z)

/-- Sentinel LOD `UINT_MAX` used by the `Node` constructor for nodes that did
not qualify. -/
def UINT_MAX : ℕ := 4294967295

/-- The `uint16` bit value `1 << (Depth - 1)` computed by `IsPointUsed`
(line 202).  `Depth` is a `uint32`; for `Depth = 0` the C++ shift count wraps to
`2 ^ 32 - 1`, which is an out-of-range shift (undefined behaviour); both the
`uint16` truncation semantics and the observed x86 code generation yield `0`,
which the model adopts.  For `Depth ≥ 17` the shifted value truncates to `0` in
the `uint16`, captured by the explicit `% 65536`. -/
def reservationMask (Depth : ℕ) : ℕ :=
  if Depth = 0 then 0 else (1 <<< (Depth - 1)) % 65536

/-- `FPointCloudOctree::IsPointUsed` (lines 199-204): test the depth's bit in
the point's `uint16` reservation field. -/
def IsPointUsed (ReservedPoints : ℕ → ℕ) (Index Depth : ℕ) : Bool :=
  (ReservedPoints Index) &&& reservationMask Depth == reservationMask Depth

/-- Modelled from the spec: `SetPointUsed` is declared in the missing header
`PointCloudOctree.h`; spec §3 states the bitmap marks, per point and per depth,
"claimed by some node at depth d" via bit `d` (1-indexed), so `SetPointUsed`
sets the same bit that `IsPointUsed` tests. -/
def SetPointUsed (R : ℕ → ℕ) (Index Depth : ℕ) : ℕ → ℕ :=
  fun i => if i = Index then R i ||| reservationMask Depth else R i

/-- Ghost record of one `SetPointUsed` call: the reserving node's path and the
reserved point.  The depth passed to `SetPointUsed` is `path.length`. -/
structure ResEvent where
  path : List (Fin 8)
  point : FPointCloudPoint
deriving DecidableEq

/-- Ghost record of one `IsPointUsed` call made by the filter loop of
`Node::Build`: the querying node's path and the queried point.  The depth
passed to `IsPointUsed` is `path.length`. -/
structure UsedQuery where
  path : List (Fin 8)
  point : FPointCloudPoint
deriving DecidableEq

/-- One per-level entry of `FPointCloudOctree::Stats`. -/
structure LodStat where
  NumCells : ℕ
  PointCount : ℕ
  MinPointCount : ℕ
  MaxPointCount : ℕ
deriving DecidableEq

instance : Inhabited LodStat := ⟨⟨0, 0, 0, 0⟩⟩

/-- The tree-level build parameters fixed by `Rebuild` before the root is
constructed, plus the root-task serialisation order (see the module comment). -/
structure Ctx where
  MaxLOD : ℕ
  MinimumNodePointCount : ℕ
  bUsesSprites : Bool
  SinglePolySpriteMinimumLOD : ℕ
  SkipValues : List ℚ
  RootOrder : List (Fin 8)

/-- The mutable state shared by all nodes during a build: the reservation
bitmap and the per-level statistics, plus the two ghost logs. -/
structure BuildState where
  ReservedPoints : ℕ → ℕ
  Stats : List LodStat
  resEvents : List ResEvent
  usedQueries : List UsedQuery

/-- A constructed `Node`: its LOD (the sentinel `UINT_MAX` when the candidate
region did not qualify), bounds, index-buffer cache, primitive count, slot
index in the parent, and linked children. -/
inductive NodeOut where
  | mk : ℕ → V3 → V3 → List ℕ → ℕ → ℕ → List NodeOut → NodeOut

/-- LOD of a node. -/
def NodeOut.LOD : NodeOut → ℕ
  | .mk l _ _ _ _ _ _ => l

/-- Bounds origin of a node. -/
def NodeOut.Origin : NodeOut → V3
  | .mk _ o _ _ _ _ _ => o

/-- Bounds half extent of a node. -/
def NodeOut.BoxExtent : NodeOut → V3
  | .mk _ _ e _ _ _ _ => e

/-- Index-buffer cache of a node. -/
def NodeOut.IBCache : NodeOut → List ℕ
  | .mk _ _ _ c _ _ _ => c

/-- Primitive count of a node. -/
def NodeOut.NumPrimitives : NodeOut → ℕ
  | .mk _ _ _ _ n _ _ => n

/-- Slot index of a node in its parent's child array. -/
def NodeOut.ChildIndex : NodeOut → ℕ
  | .mk _ _ _ _ _ i _ => i

/-- Linked children of a node. -/
def NodeOut.Children : NodeOut → List NodeOut
  | .mk _ _ _ _ _ _ cs => cs

instance : Inhabited NodeOut := ⟨.mk UINT_MAX default default [] 0 0 []⟩

/-- `Child->ChildIndex = NumChildren` assignment of `Subdivide_Thread`. -/
def NodeOut.setChildIndex : NodeOut → ℕ → NodeOut
  | .mk l o e c n _ cs, i => .mk l o e c n i cs

/-- Append render data into an existing node (`CacheNode->IBCache.Append(...)`
and `CacheNode->NumPrimitives += ...` of `BuildIBCache` when the cache node is
a sibling). -/
def NodeOut.appendCache : NodeOut → List ℕ → ℕ → NodeOut
  | .mk l o e c n i cs, cNew, n2 => .mk l o e (c ++ cNew) (n + n2) i cs

/-- The octant offset `FVector((i & 1) == 1, (i & 2) == 2, (i & 4) == 4)` of
`Node::Subdivide` (line 110), with boolean components read as `0.0` / `1.0`. -/
def octOffset (i : Fin 8) : V3 :=
  ⟨if i.val &&& 1 = 1 then 1 else 0,
   if i.val &&& 2 = 2 then 1 else 0,
   if i.val &&& 4 = 4 then 1 else 0⟩

/-- The child box of octant `i`: origin
`LocalBounds.Origin + LocalBounds.BoxExtent * Offset - ChildBoxExtent` with
half extent `LocalBounds.BoxExtent * 0.5f` (lines 101 and 143). -/
def octantBox (b : Box) (i : Fin 8) : Box :=
  { Origin := V3.sub (V3.add b.Origin (V3.hadamard b.BoxExtent (octOffset i))) (V3.half b.BoxExtent),
    BoxExtent := V3.half b.BoxExtent }

/-- The box of the node at `path` below root box `B`. -/
def pathBox (B : Box) (path : List (Fin 8)) : Box :=
  path.foldl octantBox B

/-- The filter loop of `Node::Build` (lines 56-69): keep a point if it is
inside `[Min, Max]` and either strictly interior or not yet reserved at this
depth.  Also returns the ghost log of `IsPointUsed` calls, which happen exactly
for the in-box points that are not strictly interior (the `&&`/`||`
short-circuiting of line 60/63). -/
def filterPoints (R : ℕ → ℕ) (path : List (Fin 8)) (Mn Mx : V3) :
    List FPointCloudPoint → List FPointCloudPoint × List UsedQuery
  | [] => ([], [])
  | p :: rest =>
    let r := filterPoints R path Mn Mx rest
    if pointInBox Mn Mx p.Location then
      if pointInterior Mn Mx p.Location then
        (p :: r.1, r.2)
      else
        if IsPointUsed R p.VertexIndex path.length then
          (r.1, ⟨path, p⟩ :: r.2)
        else
          (p :: r.1, ⟨path, p⟩ :: r.2)
    else
      (r.1, r.2)

/-- The sampling loop of `BuildIBCache` (lines 165-191): walk a fractional
index `i` from `0` by `SkipValues[LOD]` while `i < InPoints->Num()`, emitting
per sample either one vertex index (no sprites), three indices (sprite, single
triangle at `LOD >= SinglePolySpriteMinimumLOD`) or six indices (sprite, full
quad).  `(uint32)i` truncation of the nonnegative fractional index is the
floor.  The loop is fuelled; since every stride produced by `Rebuild` is at
least `1`, fuel `InPoints.length` (supplied by `ibCacheData`) is never
exhausted before the `i < Num` test fails. -/
def ibLoop (t : Ctx) (LOD : ℕ) (pts : List FPointCloudPoint) :
    ℕ → ℚ → List ℕ × ℕ
  | 0, _ => ([], 0)
  | fuel+1, i =>
    if i < (pts.length : ℚ) then
      let p := pts.getD (Rat.floor i).toNat default
      let r := ibLoop t LOD pts fuel (i + t.SkipValues.getD LOD 0)
      if t.bUsesSprites then
        let idx0 := p.VertexIndex * 4
        if t.SinglePolySpriteMinimumLOD ≤ LOD then
          (idx0 :: (idx0+1) :: (idx0+2) :: r.1, r.2 + 1)
        else
          (idx0 :: (idx0+1) :: (idx0+2) :: idx0 :: (idx0+2) :: (idx0+3) :: r.1, r.2 + 2)
      else
        (p.VertexIndex :: r.1, r.2 + 1)
    else ([], 0)

/-- The index data and primitive count produced by one run of the
`BuildIBCache` sampling loop. -/
def ibCacheData (t : Ctx) (LOD : ℕ) (pts : List FPointCloudPoint) : List ℕ × ℕ :=
  ibLoop t LOD pts pts.length 0

/-- Result of `BuildIBCache`: the data left on this node, the updated sibling
list, and the `CacheNode == this` return value. -/
structure IBOut where
  Cache : List ℕ
  Prims : ℕ
  Siblings : List NodeOut
  StoredOnSelf : Bool

/-- Merge render data into the head of the sibling list
(`Parent->Children[0]`). -/
def mergeIntoHead : List NodeOut → List ℕ → ℕ → List NodeOut
  | [], _, _ => []
  | n :: rest, c, k => n.appendCache c k :: rest

/-- `Node::BuildIBCache` (lines 159-194).  The cache target is
`Parent->Children[0]` when `LOD == 0 && Parent && Parent->NumChildren &&
Tree->GetMaxLOD() > 1`, otherwise `this`.  `GetMaxLOD` is declared in the
missing header; modelled from the spec ("the tree's max LOD") as `t.MaxLOD`.
Returns whether the cache was stored on `this`. -/
def BuildIBCache (t : Ctx) (LOD : ℕ) (hasParent : Bool)
    (InPoints : List FPointCloudPoint) (Siblings : List NodeOut) : IBOut :=
  let d := ibCacheData t LOD InPoints
  if LOD == 0 && hasParent && !Siblings.isEmpty && decide (1 < t.MaxLOD) then
    { Cache := [], Prims := 0, Siblings := mergeIntoHead Siblings d.1 d.2,
      StoredOnSelf := false }
  else
    { Cache := d.1, Prims := d.2, Siblings := Siblings, StoredOnSelf := true }

/-- `FPointCloudOctree::AddStats` (lines 206-222). -/
def AddStats (t : Ctx) (Stats : List LodStat) (Depth PointCount0 : ℕ) : List LodStat :=
  let PointCount :=
    if t.bUsesSprites && decide (t.MaxLOD - Depth < t.SinglePolySpriteMinimumLOD) then
      PointCount0 / 2
    else PointCount0
  let s := Stats.getD Depth default
  let s1 : LodStat := { s with NumCells := s.NumCells + 1 }
  let s2 : LodStat :=
    if PointCount ≠ 0 then
      { s1 with
        PointCount := s1.PointCount + PointCount,
        MinPointCount := if s1.NumCells == 1 then PointCount else min s1.MinPointCount PointCount,
        MaxPointCount := if s1.NumCells == 1 then PointCount else max s1.MaxPointCount PointCount }
    else s1
  Stats.set Depth s2

/-- The type of a node builder: path, box origin, box extent, inherited point
list, currently linked siblings of the node, and shared state, producing the
constructed node, the (possibly merge-updated) sibling list, and the state. -/
def BuildFn : Type :=
  List (Fin 8) → V3 → V3 → List FPointCloudPoint → List NodeOut → BuildState →
    NodeOut × List NodeOut × BuildState

/-- Fallback builder used only when the recursion fuel is exhausted (never
reached from `Rebuild`, which supplies fuel `MaxLOD + 1`): produces a sentinel
node and no side effects. -/
def noChildBuilder : BuildFn :=
  fun _ O E _ sibs st => (NodeOut.mk UINT_MAX O E [] 0 0 [], sibs, st)

/-- `Node::Subdivide_Thread` linking step (lines 146-156): a child whose LOD is
the sentinel is discarded; otherwise it is appended to the child array with
`ChildIndex = NumChildren`. -/
def linkChild (acc : List NodeOut) (child : NodeOut) : List NodeOut :=
  if child.LOD == UINT_MAX then acc else acc ++ [child.setChildIndex acc.length]

/-- `Node::Subdivide` + `Subdivide_Thread` (lines 97-157) with each task
serialised as one atomic unit: construct one child candidate per octant in the
given serialisation order, threading the partially built child array (which
each child's `BuildIBCache` may mutate) and the shared state.  This whole-task
serialisation over-approximates the source's mutex discipline — the filter loop
of a child's `Build` runs unlocked and may interleave with sibling tasks — so
it drops the schedules in which two filters read the bitmap before either
task's reservations are applied; the fine-grained model (`fineStep` onward)
restores them. -/
def Subdivide (recChild : BuildFn) (path : List (Fin 8)) (pO pE : V3)
    (pts : List FPointCloudPoint) :
    List (Fin 8) → List NodeOut → BuildState → List NodeOut × BuildState
  | [], acc, st => (acc, st)
  | i :: rest, acc, st =>
    let b := octantBox ⟨pO, pE⟩ i
    let r := recChild (path ++ [i]) b.Origin b.BoxExtent pts acc st
    Subdivide recChild path pO pE pts rest (linkChild r.2.1 r.1) r.2.2

/-- The octant order used by a node's `Subdivide`: the root-task serialisation
order at the root, the sequential source order `0..7` everywhere below. -/
def stdOctants : List (Fin 8) := [0, 1, 2, 3, 4, 5, 6, 7]

/-- Octant order selector (see `stdOctants`). -/
def octOrder (t : Ctx) (path : List (Fin 8)) : List (Fin 8) :=
  if path.isEmpty then t.RootOrder else stdOctants

/-- The state updates a qualifying node performs before subdividing: the
filter's `IsPointUsed` queries are logged, the reservations of all accepted
points are applied at this node's depth (lines 79-82, with one ghost
`ResEvent` per `SetPointUsed` call), and the node's primitive count is folded
into the per-level statistics (line 90). -/
def qualifiedState (t : Ctx) (path : List (Fin 8)) (Tmp : List FPointCloudPoint)
    (queries : List UsedQuery) (prims : ℕ) (st : BuildState) : BuildState :=
  { ReservedPoints :=
      Tmp.foldl (fun R p => SetPointUsed R p.VertexIndex path.length) st.ReservedPoints,
    Stats := AddStats t st.Stats path.length prims,
    resEvents := st.resEvents ++ Tmp.map (fun p => ResEvent.mk path p),
    usedQueries := st.usedQueries ++ queries }

/-- `Node::Build` (lines 45-95), parameterised by the builder used for child
octants: filter the inherited points; if at least `MinimumNodePointCount`
remain, set `LOD = MaxLOD - GetDepth()`, apply the reservations at this depth,
build the index-buffer cache, fold the primitive count into the statistics, and
subdivide; otherwise leave the sentinel LOD and do nothing further (only the
ghost log of the filter's queries grows). -/
def Build (t : Ctx) (recChild : BuildFn) : BuildFn :=
  fun path O E InPoints Siblings st =>
    let fr := filterPoints st.ReservedPoints path (V3.sub O E) (V3.add O E) InPoints
    if t.MinimumNodePointCount ≤ fr.1.length then
      let LOD := t.MaxLOD - path.length
      let bc := BuildIBCache t LOD (!path.isEmpty) fr.1 Siblings
      let st3 := qualifiedState t path fr.1 fr.2 bc.Prims st
      let cs :=
        if path.length < t.MaxLOD then
          Subdivide recChild path O E fr.1 (octOrder t path) [] st3
        else ([], st3)
      (NodeOut.mk LOD O E bc.Cache bc.Prims 0 cs.1, bc.Siblings, cs.2)
    else
      (NodeOut.mk UINT_MAX O E [] 0 0 [],
       Siblings, { st with usedQueries := st.usedQueries ++ fr.2 })

/-- The recursive node builder, structurally fuelled by the remaining depth
budget.  `Rebuild` supplies fuel `MaxLOD + 1`, which is never exhausted because
`Subdivide` stops at `GetDepth() == MaxLOD`. -/
def BuildNode (t : Ctx) : ℕ → BuildFn
  | 0 => Build t noChildBuilder
  | fuel+1 => Build t (BuildNode t fuel)

/-- Parameters read from the point-cloud asset by `Rebuild` (external
collaborator; modelled from the spec's external-interface list §6). -/
structure AssetParams where
  LODCount : ℤ
  SinglePolySpriteMinimumLOD : ℕ
  bUsesSprites : Bool
  MinimumNodePointCount : ℕ
  LODReduction : ℚ
  Points : List FPointCloudPoint
  BoundsOrigin : V3
  BoundsExtent : V3

/-- Modelled from the spec: the engine's `FMath::Clamp(X, Min, Max)`, which is
`X < Min ? Min : (X < Max ? X : Max)`. -/
def clampQ (x lo hi : ℚ) : ℚ :=
  if x < lo then lo else if x < hi then x else hi

/-- The skip-value formula of `Rebuild` (line 271):
`1 / (1 - Clamp(LODReduction, 0, 1)) ^ i` for `i` in `0..MaxLOD`.
(In `ℚ`, a vanished denominator yields `0` rather than the IEEE infinity the
C++ produces when the clamped factor is exactly `1`.) -/
def skipValuesList (maxLOD : ℕ) (r : ℚ) : List ℚ :=
  (List.range (maxLOD + 1)).map fun i => 1 / (1 - clampQ r 0 1) ^ i

/-- Result of a successful `Rebuild`: the root node and the tree-level state
(the reservation bitmap is emptied at the end of `Rebuild`, line 284, so only
the ghost logs survive in the result). -/
structure RebuildResult where
  Root : NodeOut
  SkipValues : List ℚ
  Stats : List LodStat
  resEvents : List ResEvent
  usedQueries : List UsedQuery

instance : Inhabited RebuildResult := ⟨⟨default, [], [], [], []⟩⟩

/-- `MaxLOD = PointCloud->GetLODCount() - 1` as the nonnegative depth ceiling
used once the `Rebuild` guard has passed. -/
def assetMaxLOD (a : AssetParams) : ℕ := (a.LODCount - 1).toNat

/-- The tree parameters `Rebuild` derives from the asset (lines 256-272),
together with the root-task serialisation order. -/
def rebuildCtx (σ : List (Fin 8)) (a : AssetParams) : Ctx :=
  { MaxLOD := assetMaxLOD a,
    MinimumNodePointCount := a.MinimumNodePointCount,
    bUsesSprites := a.bUsesSprites,
    SinglePolySpriteMinimumLOD := a.SinglePolySpriteMinimumLOD,
    SkipValues := skipValuesList (assetMaxLOD a) a.LODReduction,
    RootOrder := σ }

/-- The build state at the start of a `Rebuild`: zeroed reservation bitmap
(line 274), default per-level statistics (line 275), empty ghost logs. -/
def initialState (a : AssetParams) : BuildState :=
  { ReservedPoints := fun _ => 0,
    Stats := List.replicate (assetMaxLOD a + 1) default,
    resEvents := [], usedQueries := [] }

/-- The root box of a `Rebuild` (line 281): the asset bounds origin with the
cubic extent `FVector(GetBounds().BoxExtent.GetMax())`. -/
def rootBox (a : AssetParams) : Box :=
  ⟨a.BoundsOrigin, V3.cube a.BoundsExtent.maxComp⟩

/-- `FPointCloudOctree::Rebuild` (lines 247-285), parameterised by the
root-task serialisation order `σ`: reset state, copy asset parameters, guard
`MaxLOD < 0`, compute skip values, zero the reservation bitmap, allocate the
per-level statistics, and construct the root node over the cubic bounds
`FVector(GetBounds().BoxExtent.GetMax())`. -/
def RebuildSched (σ : List (Fin 8)) (a : AssetParams) : Except String RebuildResult :=
  if a.LODCount - 1 < 0 then
    .error "MaxLOD is lower than 0!"
  else
    let r := BuildNode (rebuildCtx σ a) (assetMaxLOD a + 1) [] (rootBox a).Origin
      (rootBox a).BoxExtent a.Points [] (initialState a)
    .ok { Root := r.1, SkipValues := (rebuildCtx σ a).SkipValues, Stats := r.2.2.Stats,
          resEvents := r.2.2.resEvents, usedQueries := r.2.2.usedQueries }

/-- `Rebuild` with the identity serialisation order (the sequential reading of
the source). -/
def Rebuild (a : AssetParams) : Except String RebuildResult :=
  RebuildSched stdOctants a

/-- Total projection of `Rebuild` to its result (default on the error path);
used to state claims about concrete successful rebuilds without an `Except`
wrapper. -/
def rebuildOk (a : AssetParams) : RebuildResult :=
  match Rebuild a with
  | .ok r => r
  | .error _ => default

/-- Total projection of a scheduled `Rebuild` to its root node (the default
sentinel node on the error path, which has no children). -/
def rebuildRootSched (σ : List (Fin 8)) (a : AssetParams) : NodeOut :=
  match RebuildSched σ a with
  | .ok r => r.Root
  | .error _ => default

/-- Descendant relation on built nodes: `Descendant k n m` holds when `m` is
reached from `n` by following `k` child links, so `k` is the depth of `m`
relative to `n`. -/
inductive Descendant : ℕ → NodeOut → NodeOut → Prop
  | here (n : NodeOut) : Descendant 0 n n
  | child {n c m : NodeOut} {k : ℕ} :
      c ∈ n.Children → Descendant k c m → Descendant (k + 1) n m

/-!  Specification-side descriptions used to state the claims about the
index-buffer cache (they follow the spec's wording and are compared against
the source-derived `ibLoop`). -/

/-- The sequence of point-array indices sampled by the `BuildIBCache` walk:
the floors of `0, s, 2s, ...` while the fractional index stays below `n`
(fuelled like `ibLoop`). -/
def samplePositions (n : ℕ) (s : ℚ) : ℕ → ℚ → List ℕ
  | 0, _ => []
  | f+1, i => if i < (n : ℚ) then (Rat.floor i).toNat :: samplePositions n s f (i + s) else []

/-- Per-sampled-point index block described by the spec: the single vertex
index without sprites; with sprites, one triangle (3 indices) at
`LOD ≥ SinglePolySpriteMinimumLOD`, otherwise a full quad (6 indices, two
triangles), all based at the point's vertex index times 4. -/
def pointEmit (t : Ctx) (LOD v : ℕ) : List ℕ :=
  if t.bUsesSprites then
    if t.SinglePolySpriteMinimumLOD ≤ LOD then
      [v * 4, v * 4 + 1, v * 4 + 2]
    else
      [v * 4, v * 4 + 1, v * 4 + 2, v * 4, v * 4 + 2, v * 4 + 3]
  else [v]

/-- Per-sampled-point primitive count described by the spec: 1 without
sprites; with sprites, 1 for the single triangle and 2 for the quad. -/
def pointPrims (t : Ctx) (LOD : ℕ) : ℕ :=
  if t.bUsesSprites then
    if t.SinglePolySpriteMinimumLOD ≤ LOD then 1 else 2
  else 1

/-!  Concrete assets used by witnesses and counterexamples. -/

/-- A baseline asset: one LOD level, no sprites, minimum one point per node,
bounds `[-1, 1]^3`. -/
def baseAsset : AssetParams :=
  { LODCount := 1, SinglePolySpriteMinimumLOD := 0, bUsesSprites := false,
    MinimumNodePointCount := 1, LODReduction := 1/2, Points := [],
    BoundsOrigin := ⟨0, 0, 0⟩, BoundsExtent := ⟨1, 1, 1⟩ }

/-- Asset with `GetLODCount() = 0`, i.e. `MaxLOD = -1`: triggers the `Rebuild`
safety guard. -/
def assetNoLod : AssetParams := { baseAsset with LODCount := 0 }

/-- Asset whose point cloud is empty while `MinimumNodePointCount = 1`: the
root candidate region does not qualify, so the root keeps the sentinel LOD. -/
def assetEmpty : AssetParams := baseAsset

/-- Asset with one interior point and one point exactly on the minimum corner
of the root bounds: the corner point makes the root's filter call
`IsPointUsed` with depth 0, and the qualifying root calls `SetPointUsed` with
depth 0 for its accepted point. -/
def assetDepth0 : AssetParams :=
  { baseAsset with Points := [⟨⟨0, 0, 0⟩, 5⟩, ⟨⟨-1, -1, -1⟩, 7⟩] }

/-- Two-level asset with one point strictly inside octant 0 and one strictly
inside octant 1, used to show that the root children's slot assignment depends
on the order in which the 8 root tasks complete. -/
def assetTwoOctants : AssetParams :=
  { baseAsset with
    LODCount := 2
    Points := [⟨⟨-1/2, -1/2, -1/2⟩, 0⟩, ⟨⟨1/2, -1/2, -1/2⟩, 1⟩] }

/-- The root-task serialisation order in which the task of octant 1 completes
(acquires the child-linking mutex) before the task of octant 0. -/
def swappedOrder : List (Fin 8) := [1, 0, 2, 3, 4, 5, 6, 7]

/-- Asset with three LOD levels (`maxLOD = 2`), whose derived tree parameters
enable the finest-LOD cache merge (`GetMaxLOD() > 1`). -/
def assetThreeLod : AssetParams := { baseAsset with LODCount := 3 }

/-- Asset with an empty cloud and `MinimumNodePointCount = 0`: its root
qualifies with zero points, so `BuildIBCache` returns true while `AddStats`
records a non-data-holding cell. -/
def assetMinZero : AssetParams := { baseAsset with MinimumNodePointCount := 0 }

/-- Shape invariant of a built subtree. -/
def ShapeOK (t : Ctx) (d : ℕ) (n : NodeOut) : Prop :=
  ∀ k m, Descendant k n m →
    (m.LOD = UINT_MAX ∧ k = 0 ∧ m.Children = []) ∨
    (m.LOD = t.MaxLOD - (d + k) ∧ m.LOD + (d + k) = t.MaxLOD ∧
     (d + k = t.MaxLOD → m.Children = []) ∧
     (∀ c ∈ m.Children, c.LOD ≠ UINT_MAX) ∧
     (∀ j, j < m.Children.length → (m.Children.getD j default).ChildIndex = j))

/-- Invariant of a partially assembled child-slot array: every linked child is
non-sentinel and shape-correct at depth `d`, and the slots are consecutive. -/
def ChildrenListOK (t : Ctx) (d : ℕ) (l : List NodeOut) : Prop :=
  (∀ n ∈ l, n.LOD ≠ UINT_MAX ∧ ShapeOK t d n) ∧
  (∀ j, j < l.length → (l.getD j default).ChildIndex = j)

/-- Number of cache indices per primitive: 3 with sprites (triangles), 1
without (one vertex index per point primitive). -/
def cacheMult (t : Ctx) : ℕ := if t.bUsesSprites then 3 else 1

/-- Ratio invariant of a built subtree: every node's cache length is the
per-primitive multiplier times its primitive count. -/
def RatioOK (mult : ℕ) (n : NodeOut) : Prop :=
  ∀ k m, Descendant k n m → m.IBCache.length = mult * m.NumPrimitives

/-!  Proof-side predicates for the reservation-exclusivity claim (C1). -/

/-- Path-prefix order: `pathLe q1 q2` when node `q2` lies in the subtree of
node `q1`. -/
def pathLe (q1 q2 : List (Fin 8)) : Prop := ∃ r, q2 = q1 ++ r

/-- Closed membership of a point in a box (the line-60 inclusion test of the
filter). -/
def inClosedBox (b : Box) (p : V3) : Prop :=
  pointInBox (V3.sub b.Origin b.BoxExtent) (V3.add b.Origin b.BoxExtent) p = true

/-- Strict (open) membership of a point in a box: the point is inside and on
none of the six faces. -/
def inOpenBox (b : Box) (p : V3) : Prop :=
  (b.Origin.x - b.BoxExtent.x < p.x ∧ p.x < b.Origin.x + b.BoxExtent.x) ∧
  (b.Origin.y - b.BoxExtent.y < p.y ∧ p.y < b.Origin.y + b.BoxExtent.y) ∧
  (b.Origin.z - b.BoxExtent.z < p.z ∧ p.z < b.Origin.z + b.BoxExtent.z)

/-- Strictly positive half extents (a non-degenerate box). -/
def posExtent (b : Box) : Prop :=
  0 < b.BoxExtent.x ∧ 0 < b.BoxExtent.y ∧ 0 < b.BoxExtent.z

/-- Mutual exclusivity of two reservation events: equal depths and equal
vertex indices force the same reserving node. -/
def exclusive (e1 e2 : ResEvent) : Prop :=
  e1.path.length = e2.path.length → e1.point.VertexIndex = e2.point.VertexIndex →
    e1.path = e2.path

/-- Invariant of the reservation-event log relative to the root box `B0` and
the input list `P0`: every event's point comes from `P0` and lies in the
reserving node's box, its depth bit is set in the bitmap, and the log is
pairwise exclusive. -/
def EventsInv (B0 : Box) (P0 : List FPointCloudPoint) (R : ℕ → ℕ)
    (evs : List ResEvent) : Prop :=
  (∀ e ∈ evs, e.point ∈ P0 ∧ inClosedBox (pathBox B0 e.path) e.point.Location ∧
    IsPointUsed R e.point.VertexIndex e.path.length = true) ∧
  List.Pairwise exclusive evs

/-- Invariant of the query log: every `IsPointUsed` call was made for an
in-box point of the querying node that is not strictly interior to it. -/
def QueriesInv (B0 : Box) (qs : List UsedQuery) : Prop :=
  ∀ q ∈ qs, inClosedBox (pathBox B0 q.path) q.point.Location ∧
    pointInterior (V3.sub (pathBox B0 q.path).Origin (pathBox B0 q.path).BoxExtent)
      (V3.add (pathBox B0 q.path).Origin (pathBox B0 q.path).BoxExtent)
      q.point.Location = false

/-- Combined state invariant for the reservation-exclusivity induction. -/
def StateInv (B0 : Box) (P0 : List FPointCloudPoint) (st : BuildState) : Prop :=
  EventsInv B0 P0 st.ReservedPoints st.resEvents ∧ QueriesInv B0 st.usedQueries

/-- A builder all of whose runs (at the box addressed by their path) preserve
the state invariant, only set reservation bits (never clear them), and only
append events lying inside their own subtree. -/
def GoodBuilder (B0 : Box) (P0 : List FPointCloudPoint) (F : BuildFn) : Prop :=
  ∀ (path : List (Fin 8)) (pts : List FPointCloudPoint) (sibs : List NodeOut)
    (st : BuildState),
    (∀ p ∈ pts, p ∈ P0) →
    StateInv B0 P0 st →
    (∀ e ∈ st.resEvents, ¬ pathLe path e.path) →
    (∀ v d, IsPointUsed st.ReservedPoints v d = true →
      IsPointUsed (F path (pathBox B0 path).Origin (pathBox B0 path).BoxExtent
        pts sibs st).2.2.ReservedPoints v d = true) ∧
    (∃ new, (F path (pathBox B0 path).Origin (pathBox B0 path).BoxExtent
        pts sibs st).2.2.resEvents = st.resEvents ++ new ∧
      ∀ e ∈ new, pathLe path e.path) ∧
    StateInv B0 P0 (F path (pathBox B0 path).Origin (pathBox B0 path).BoxExtent
      pts sibs st).2.2

/-!  Fine-grained model of the root-level fan-out (C1).

`Subdivide` serialises each of the 8 root tasks as one atomic unit.  The
source, however, holds `CriticalSection` only while applying reservations,
folding statistics and linking children; the filter loop of a child's `Build`
(lines 56-69), including its `IsPointUsed` check (line 63), runs unlocked and
concurrently with the other root tasks.  The definitions below split each root
task into its unlocked filter phase and its committing remainder and run an
arbitrary interleaving of those phases.  Every behaviour of this model is
realisable by the program (run each filter loop entirely inside a gap between
the other tasks' critical sections); it does not express interleavings inside
a filter loop, which only restricts it further.  On the schedules where each
task's two phases are adjacent the model coincides with the serialised one
(`fineRun_serial`). -/

/-- Lines 71-94 of `Node::Build`: the remainder of a node build after the
filter loop, taking the already-computed filter result `fr`.  `Build` is
definitionally the composition of `filterPoints` with this function
(`Build_eq_filter_commit`). -/
def buildCommit (t : Ctx) (recChild : BuildFn) (path : List (Fin 8)) (O E : V3)
    (fr : List FPointCloudPoint × List UsedQuery) (Siblings : List NodeOut)
    (st : BuildState) : NodeOut × List NodeOut × BuildState :=
  if t.MinimumNodePointCount ≤ fr.1.length then
    let LOD := t.MaxLOD - path.length
    let bc := BuildIBCache t LOD (!path.isEmpty) fr.1 Siblings
    let st3 := qualifiedState t path fr.1 fr.2 bc.Prims st
    let cs :=
      if path.length < t.MaxLOD then
        Subdivide recChild path O E fr.1 (octOrder t path) [] st3
      else ([], st3)
    (NodeOut.mk LOD O E bc.Cache bc.Prims 0 cs.1, bc.Siblings, cs.2)
  else
    (NodeOut.mk UINT_MAX O E [] 0 0 [],
     Siblings, { st with usedQueries := st.usedQueries ++ fr.2 })

/-- The builder a root child's `Build` recurses with: `Rebuild` starts the root
at fuel `MaxLOD + 1`, so a root child (depth 1) runs at fuel `MaxLOD`, whose
inner builder this is (`BuildNode_eq_filter_commit`). -/
def childRec (t : Ctx) : BuildFn :=
  match t.MaxLOD with
  | 0 => noChildBuilder
  | m + 1 => BuildNode t m

/-- One scheduling event of a root-level task: the task of octant `i` runs its
unlocked filter loop, or commits (reserves its accepted points, builds its
cache, updates the statistics, subdivides sequentially, and is linked into the
child array). -/
inductive RootEv where
  | filterEv (i : Fin 8)
  | commitEv (i : Fin 8)

/-- State of the interleaved root fan-out: the shared build state, the
per-task buffer holding a completed but not yet committed filter result, and
the root's partially assembled child array. -/
structure FineState where
  st : BuildState
  buf : Fin 8 → Option (List FPointCloudPoint × List UsedQuery)
  kids : List NodeOut

/-- One step of the interleaved root fan-out over root box `B` and the root's
accepted points `InPoints`: a filter event runs the task's filter loop against
the reservation bitmap of this moment and buffers the result; a commit event
runs the task's remainder (`buildCommit`, then the linking step of
`Subdivide_Thread`) on the buffered filter result. -/
def fineStep (t : Ctx) (B : Box) (InPoints : List FPointCloudPoint)
    (fs : FineState) : RootEv → FineState
  | .filterEv i =>
    let b := octantBox B i
    { fs with
      buf := fun j =>
        if j = i then
          some (filterPoints fs.st.ReservedPoints [i] (V3.sub b.Origin b.BoxExtent)
            (V3.add b.Origin b.BoxExtent) InPoints)
        else fs.buf j }
  | .commitEv i =>
    match fs.buf i with
    | none => fs
    | some fr =>
      let b := octantBox B i
      let r := buildCommit t (childRec t) [i] b.Origin b.BoxExtent fr fs.kids fs.st
      { st := r.2.2
        buf := fun j => if j = i then none else fs.buf j
        kids := linkChild r.2.1 r.1 }

/-- Run a schedule of root-task events. -/
def fineRun (t : Ctx) (B : Box) (InPoints : List FPointCloudPoint)
    (sched : List RootEv) (fs : FineState) : FineState :=
  sched.foldl (fineStep t B InPoints) fs

/-- The whole-task serialisation of the root tasks in order `ord`, as a
fine-grained schedule: each task's filter is immediately followed by its own
commit. -/
def serialSched : List (Fin 8) → List RootEv
  | [] => []
  | i :: rest => RootEv.filterEv i :: RootEv.commitEv i :: serialSched rest

/-- `Rebuild` (lines 247-285, guard already passed) with the root's own
`Build` run as in the source — its filter, qualification test, reservations,
cache and statistics happen before `Subdivide` fires the tasks — and the
root-level fan-out run under the fine-grained schedule `sched`. -/
def fineRebuild (σ : List (Fin 8)) (a : AssetParams) (sched : List RootEv) :
    FineState :=
  let t := rebuildCtx σ a
  let B := rootBox a
  let st0 := initialState a
  let fr := filterPoints st0.ReservedPoints [] (V3.sub B.Origin B.BoxExtent)
    (V3.add B.Origin B.BoxExtent) a.Points
  if t.MinimumNodePointCount ≤ fr.1.length then
    let bc := BuildIBCache t t.MaxLOD false fr.1 []
    let st3 := qualifiedState t [] fr.1 fr.2 bc.Prims st0
    if 0 < t.MaxLOD then fineRun t B fr.1 sched ⟨st3, fun _ => none, []⟩
    else ⟨st3, fun _ => none, []⟩
  else
    ⟨{ st0 with usedQueries := st0.usedQueries ++ fr.2 }, fun _ => none, []⟩

/-- The point `(0, -1/2, -1/2)`: strictly inside the root bounds `[-1, 1]^3`
but exactly on the plane `x = 0` shared by root octants 0 and 1. -/
def racePoint : FPointCloudPoint := ⟨⟨0, -1/2, -1/2⟩, 3⟩

/-- Two-level asset whose single point lies on the face shared by root
octants 0 and 1. -/
def raceAsset : AssetParams :=
  { baseAsset with
    LODCount := 2
    Points := [racePoint] }

/-- The schedule in which all eight root tasks run their unlocked filter loops
before any of them commits: realisable on the thread pool, since a filter loop
only reads the bitmap and a task first takes the mutex when applying its
reservations. -/
def raceSched : List RootEv :=
  [.filterEv 0, .filterEv 1, .filterEv 2, .filterEv 3,
   .filterEv 4, .filterEv 5, .filterEv 6, .filterEv 7,
   .commitEv 0, .commitEv 1, .commitEv 2, .commitEv 3,
   .commitEv 4, .commitEv 5, .commitEv 6, .commitEv 7]

/-!  Lemmas about the index-buffer sampling loop. -/

/-- Accumulator-free characterisation of the `BuildIBCache` sampling loop: it
emits exactly the concatenation of one spec-side block per sampled position,
and one spec-side primitive count per sampled position. -/
theorem ibLoop_decomp (t : Ctx) (LOD : ℕ) (pts : List FPointCloudPoint) :
    ∀ (fuel : ℕ) (i : ℚ),
      ibLoop t LOD pts fuel i =
        (((samplePositions pts.length (t.SkipValues.getD LOD 0) fuel i).map
            (fun k => pointEmit t LOD (pts.getD k default).VertexIndex)).flatten,
          (samplePositions pts.length (t.SkipValues.getD LOD 0) fuel i).length *
            pointPrims t LOD) := by
  intro fuel
  induction fuel with
  | zero => intro i; simp [ibLoop, samplePositions]
  | succ f ih =>
    intro i
    by_cases h : i < (pts.length : ℚ)
    · simp only [ibLoop, samplePositions, if_pos h, ih, List.map_cons, List.flatten_cons,
        List.length_cons, pointEmit, pointPrims]
      by_cases hs : t.bUsesSprites
      · by_cases hl : t.SinglePolySpriteMinimumLOD ≤ LOD
        · simp [hs, hl]
        · simp [hs, hl]
          omega
      · simp [hs]
    · simp [ibLoop, samplePositions, if_neg h]

/-- C4: for every sampled point during render-cache construction, sprite mode
off appends exactly the point's single vertex index and counts one primitive;
sprite mode on with the node's LOD at or above `SinglePolySpriteMinimumLOD`
appends exactly the 3 indices of one triangle and counts one primitive; sprite
mode on below that threshold appends exactly the 6 indices of the two
triangles of a quad, all based at the point's vertex index times 4, and counts
two primitives. -/
theorem C4_cache_per_point_blocks (t : Ctx) (LOD : ℕ) (pts : List FPointCloudPoint) :
    (ibCacheData t LOD pts).1 =
      ((samplePositions pts.length (t.SkipValues.getD LOD 0) pts.length 0).map
        (fun k => pointEmit t LOD (pts.getD k default).VertexIndex)).flatten ∧
    (ibCacheData t LOD pts).2 =
      (samplePositions pts.length (t.SkipValues.getD LOD 0) pts.length 0).length *
        pointPrims t LOD := by
  unfold ibCacheData
  rw [ibLoop_decomp]
  exact ⟨rfl, rfl⟩

/-!  Skip values (claim C5). -/

/-- The clamp used by `Rebuild` stays at or above its lower bound `0`. -/
theorem clampQ_nonneg (r : ℚ) : 0 ≤ clampQ r 0 1 := by
  unfold clampQ
  split_ifs with h1 h2
  · exact le_refl 0
  · exact le_of_not_lt h1
  · exact zero_le_one

/-- C5 counterexample: the code clamps the reduction factor with
`FMath::Clamp(LODReduction, 0.0f, 1.0f)`, i.e. to the closed interval
`[0, 1]`, not to the half-open `[0, 1)` the claim states: for
`LODReduction = 1` the clamped factor is exactly `1`, the denominator
`(1 - r) ^ i` vanishes for `i ≥ 1`, and the skip value is not a well-defined
finite stride (the C++ `double` arithmetic produces `+inf`; the total `ℚ`
model renders the division by zero as `0`, in particular not a stride `≥ 1`). -/
theorem C5_skip_values_cex :
    clampQ 1 0 1 = 1 ∧ ¬ clampQ 1 0 1 < 1 ∧ 1 - clampQ 1 0 1 = 0 ∧
    (skipValuesList 1 1).getD 1 0 = 0 ∧ ¬ (1 : ℚ) ≤ (skipValuesList 1 1).getD 1 0 := by
  refine ⟨by decide, by decide, by decide, by decide, by decide⟩

/-- C5 amended: `Rebuild` computes `skipValues[i] = 1 / (1 - r) ^ i` for every
`i` in `0..maxLOD`, where `r` is the asset's reduction factor clamped to the
closed interval `[0, 1]`; whenever the clamped factor is strictly below `1`
every entry is a well-defined stride of at least `1` and `skipValues[0] = 1`;
for reduction factor `0.5` and `maxLOD = 2` the result is `[1, 2, 4]`. -/
theorem C5_skip_values_amended (m : ℕ) (r : ℚ) (h : clampQ r 0 1 < 1) :
    (skipValuesList m r).length = m + 1 ∧
    (∀ i, i ≤ m → (skipValuesList m r).getD i 0 = 1 / (1 - clampQ r 0 1) ^ i ∧
      1 ≤ (skipValuesList m r).getD i 0) ∧
    (skipValuesList m r).getD 0 0 = 1 ∧
    skipValuesList 2 (1/2) = [1, 2, 4] := by
  have hgd : ∀ i, i ≤ m → (skipValuesList m r).getD i 0 = 1 / (1 - clampQ r 0 1) ^ i := by
    intro i hi
    have hi' : i < m + 1 := Nat.lt_succ_of_le hi
    simp [skipValuesList, List.getD_eq_getElem?_getD, List.getElem?_map, List.getElem?_range, hi']
  have h1c : 0 < 1 - clampQ r 0 1 := by linarith
  have hone : ∀ i : ℕ, 1 ≤ 1 / (1 - clampQ r 0 1) ^ i := by
    intro i
    have hp : 0 < (1 - clampQ r 0 1) ^ i := pow_pos h1c i
    have hle : (1 - clampQ r 0 1) ^ i ≤ 1 := by
      have := clampQ_nonneg r
      exact pow_le_one₀ (by linarith) (by linarith)
    rw [le_div_iff₀ hp, one_mul]
    exact hle
  refine ⟨by simp [skipValuesList], ?_, ?_, by decide⟩
  · intro i hi
    exact ⟨hgd i hi, (hgd i hi) ▸ hone i⟩
  · rw [hgd 0 (Nat.zero_le m)]
    simp

/-- C5 witness: the amended statement instantiated at the spec's scenario
`reductionFactor = 1/2`, `maxLOD = 2`. -/
theorem C5_skip_values_amended_witness :
    (skipValuesList 2 (1/2)).length = 2 + 1 ∧
    (∀ i, i ≤ 2 → (skipValuesList 2 (1/2)).getD i 0 = 1 / (1 - clampQ (1/2) 0 1) ^ i ∧
      1 ≤ (skipValuesList 2 (1/2)).getD i 0) ∧
    (skipValuesList 2 (1/2)).getD 0 0 = 1 ∧
    skipValuesList 2 (1/2) = [1, 2, 4] :=
  C5_skip_values_amended 2 (1/2) (by decide)

/-!  The `Rebuild` guard (claim C6). -/

/-- C6: if `MaxLOD` (the asset's LOD count minus one) is negative, `Rebuild`
reports the error and returns before computing skip values, allocating the
reservation bitmap, or constructing any node (the error result carries no
root, no skip values and no statistics); for every other input the rebuild
runs to completion and returns a root — the guard is the only failure path. -/
theorem C6_maxlod_guard (σ : List (Fin 8)) (a : AssetParams) :
    (a.LODCount ≤ 0 → RebuildSched σ a = .error "MaxLOD is lower than 0!") ∧
    (0 < a.LODCount → ∃ r, RebuildSched σ a = .ok r) := by
  constructor
  · intro h
    simp only [RebuildSched]
    rw [if_pos (by omega)]
  · intro h
    simp only [RebuildSched]
    rw [if_neg (by omega)]
    exact ⟨_, rfl⟩

/-- C6 witness: the guard theorem applied to a concrete asset with
`GetLODCount() = 0` and to one with `GetLODCount() = 1`. -/
theorem C6_maxlod_guard_witness :
    RebuildSched stdOctants assetNoLod = .error "MaxLOD is lower than 0!" ∧
    ∃ r, RebuildSched stdOctants assetEmpty = .ok r :=
  ⟨(C6_maxlod_guard stdOctants assetNoLod).1 (by decide),
   (C6_maxlod_guard stdOctants assetEmpty).2 (by decide)⟩

/-!  Tree-shape invariants (claims C2, C3, C8).  `ShapeOK t d n` says that
every node of the subtree rooted at `n` (itself built at depth `d`) is either
the sentinel node itself, or carries `LOD = MaxLOD - depth` without
truncation, has no children at the depth ceiling, links no sentinel child, and
assigns consecutive `ChildIndex` slots. -/

theorem NodeOut.appendCache_LOD (n : NodeOut) (c : List ℕ) (p : ℕ) :
    (n.appendCache c p).LOD = n.LOD := by cases n; rfl

theorem NodeOut.appendCache_Children (n : NodeOut) (c : List ℕ) (p : ℕ) :
    (n.appendCache c p).Children = n.Children := by cases n; rfl

theorem NodeOut.appendCache_ChildIndex (n : NodeOut) (c : List ℕ) (p : ℕ) :
    (n.appendCache c p).ChildIndex = n.ChildIndex := by cases n; rfl

theorem NodeOut.appendCache_IBCache (n : NodeOut) (c : List ℕ) (p : ℕ) :
    (n.appendCache c p).IBCache = n.IBCache ++ c := by cases n; rfl

theorem NodeOut.appendCache_NumPrimitives (n : NodeOut) (c : List ℕ) (p : ℕ) :
    (n.appendCache c p).NumPrimitives = n.NumPrimitives + p := by cases n; rfl

theorem NodeOut.setChildIndex_LOD (n : NodeOut) (i : ℕ) :
    (n.setChildIndex i).LOD = n.LOD := by cases n; rfl

theorem NodeOut.setChildIndex_Children (n : NodeOut) (i : ℕ) :
    (n.setChildIndex i).Children = n.Children := by cases n; rfl

theorem NodeOut.setChildIndex_ChildIndex (n : NodeOut) (i : ℕ) :
    (n.setChildIndex i).ChildIndex = i := by cases n; rfl

theorem NodeOut.setChildIndex_IBCache (n : NodeOut) (i : ℕ) :
    (n.setChildIndex i).IBCache = n.IBCache := by cases n; rfl

theorem NodeOut.setChildIndex_NumPrimitives (n : NodeOut) (i : ℕ) :
    (n.setChildIndex i).NumPrimitives = n.NumPrimitives := by cases n; rfl

/-- A `Descendant` at distance `0` is the node itself. -/
theorem Descendant.zero {n m : NodeOut} (h : Descendant 0 n m) : m = n := by
  cases h
  rfl

/-- A childless node has only itself as a descendant. -/
theorem Descendant.of_no_children {k : ℕ} {n m : NodeOut} (h : Descendant k n m)
    (hc : n.Children = []) : k = 0 ∧ m = n := by
  cases h with
  | here => exact ⟨rfl, rfl⟩
  | child hmem hd => rw [hc] at hmem; exact absurd hmem (List.not_mem_nil _)

/-- The sentinel node produced for non-qualifying regions is shape-correct. -/
theorem ShapeOK_sentinel (t : Ctx) (d : ℕ) (O E : V3) :
    ShapeOK t d (NodeOut.mk UINT_MAX O E [] 0 0 []) := by
  intro k m hd
  obtain ⟨rfl, rfl⟩ := hd.of_no_children rfl
  left
  exact ⟨rfl, rfl, rfl⟩

/-- Appending cache data to a node does not change its shape. -/
theorem ShapeOK_appendCache {t : Ctx} {d : ℕ} {n : NodeOut} (c : List ℕ) (p : ℕ)
    (h : ShapeOK t d n) : ShapeOK t d (n.appendCache c p) := by
  intro k m hd
  cases hd with
  | here =>
    have h0 := h 0 n (.here n)
    simp only [NodeOut.appendCache_LOD, NodeOut.appendCache_Children]
    simpa using h0
  | child hmem hd' =>
    rw [NodeOut.appendCache_Children] at hmem
    exact h _ m (.child hmem hd')

/-- Re-slotting a node does not change its shape. -/
theorem ShapeOK_setChildIndex {t : Ctx} {d : ℕ} {n : NodeOut} (i : ℕ)
    (h : ShapeOK t d n) : ShapeOK t d (n.setChildIndex i) := by
  intro k m hd
  cases hd with
  | here =>
    have h0 := h 0 n (.here n)
    simp only [NodeOut.setChildIndex_LOD, NodeOut.setChildIndex_Children]
    simpa using h0
  | child hmem hd' =>
    rw [NodeOut.setChildIndex_Children] at hmem
    exact h _ m (.child hmem hd')

/-- Merging cache data into the head slot preserves the child-array
invariant. -/
theorem ChildrenListOK_mergeIntoHead {t : Ctx} {d : ℕ} {l : List NodeOut}
    (c : List ℕ) (p : ℕ) (h : ChildrenListOK t d l) :
    ChildrenListOK t d (mergeIntoHead l c p) := by
  cases l with
  | nil => simpa [mergeIntoHead] using h
  | cons a as =>
    obtain ⟨h1, h2⟩ := h
    constructor
    · intro n hn
      simp only [mergeIntoHead, List.mem_cons] at hn
      rcases hn with rfl | hn
      · have ha := h1 a (List.mem_cons_self a as)
        exact ⟨by rw [NodeOut.appendCache_LOD]; exact ha.1, ShapeOK_appendCache c p ha.2⟩
      · exact h1 n (List.mem_cons_of_mem a hn)
    · intro j hj
      simp only [mergeIntoHead, List.length_cons] at hj ⊢
      cases j with
      | zero =>
        have h0 := h2 0 (by simp)
        simpa [NodeOut.appendCache_ChildIndex] using h0
      | succ jj =>
        have hs := h2 (jj + 1) (by simpa using hj)
        simpa using hs

/-- Linking one child candidate preserves the child-array invariant. -/
theorem ChildrenListOK_linkChild {t : Ctx} {d : ℕ} {acc : List NodeOut}
    {child : NodeOut} (h : ChildrenListOK t d acc)
    (hc : child.LOD ≠ UINT_MAX → ShapeOK t d child) :
    ChildrenListOK t d (linkChild acc child) := by
  unfold linkChild
  by_cases hl : child.LOD == UINT_MAX
  · rw [if_pos hl]; exact h
  · rw [if_neg hl]
    have hne : child.LOD ≠ UINT_MAX := by simpa using hl
    obtain ⟨h1, h2⟩ := h
    constructor
    · intro n hn
      rcases List.mem_append.mp hn with hn | hn
      · exact h1 n hn
      · rcases List.mem_singleton.mp hn with rfl
        refine ⟨?_, ShapeOK_setChildIndex _ (hc hne)⟩
        rw [NodeOut.setChildIndex_LOD]; exact hne
    · intro j hj
      rw [List.length_append, List.length_singleton] at hj
      by_cases hjl : j < acc.length
      · rw [List.getD_append _ _ _ _ hjl]
        exact h2 j hjl
      · have hje : j = acc.length := by omega
        subst hje
        rw [List.getD_eq_getElem?_getD, List.getElem?_append_right (le_refl _)]
        simp [NodeOut.setChildIndex_ChildIndex]

/-- The empty child array is invariant-correct. -/
theorem ChildrenListOK_nil (t : Ctx) (d : ℕ) : ChildrenListOK t d [] :=
  ⟨fun n hn => absurd hn (List.not_mem_nil n), fun j hj => absurd hj (by simp)⟩

/-- A qualifying node assembled from an invariant-correct child array is
shape-correct. -/
theorem ShapeOK_node (t : Ctx) (d : ℕ) (O E : V3) (cache : List ℕ)
    (prims cidx : ℕ) (children : List NodeOut) (hd : d ≤ t.MaxLOD)
    (hch : ChildrenListOK t (d + 1) children)
    (hstop : d = t.MaxLOD → children = []) :
    ShapeOK t d (NodeOut.mk (t.MaxLOD - d) O E cache prims cidx children) := by
  intro k m hdesc
  cases hdesc with
  | here =>
    right
    refine ⟨by simp [NodeOut.LOD], by simp [NodeOut.LOD]; omega, ?_, ?_, ?_⟩
    · intro h
      simp only [NodeOut.Children]
      exact hstop (by omega)
    · intro c hc
      exact (hch.1 c (by simpa [NodeOut.Children] using hc)).1
    · intro j hj
      exact hch.2 j (by simpa [NodeOut.Children] using hj)
  | child hmem hdesc' =>
    rename_i c k'
    have hcOK := hch.1 c (by simpa [NodeOut.Children] using hmem)
    have hsub := hcOK.2 k' m hdesc'
    rcases hsub with ⟨h1, h2, h3⟩ | ⟨h1, h2, h3, h4, h5⟩
    · subst h2
      obtain rfl := hdesc'.zero
      exact absurd h1 hcOK.1
    · right
      have harith : d + (k' + 1) = d + 1 + k' := by omega
      rw [harith]
      exact ⟨h1, h2, h3, h4, h5⟩

/-- `Build` leaves the sibling array unchanged or merges one cache block into
its head (the `BuildIBCache` alternatives), for any child builder. -/
theorem Build_siblings (t : Ctx) (F : BuildFn) (path : List (Fin 8)) (O E : V3)
    (pts : List FPointCloudPoint) (sibs : List NodeOut) (st : BuildState) :
    (Build t F path O E pts sibs st).2.1 = sibs ∨
    ∃ c p, (Build t F path O E pts sibs st).2.1 = mergeIntoHead sibs c p := by
  simp only [Build]
  by_cases hq : t.MinimumNodePointCount ≤
      (filterPoints st.ReservedPoints path (V3.sub O E) (V3.add O E) pts).1.length
  · rw [if_pos hq]
    simp only [BuildIBCache]
    by_cases hm : (t.MaxLOD - path.length == 0 && !path.isEmpty &&
        !sibs.isEmpty && decide (1 < t.MaxLOD)) = true
    · rw [if_pos hm]
      right
      exact ⟨_, _, rfl⟩
    · rw [if_neg hm]
      left
      rfl
  · rw [if_neg hq]
    left
    rfl

/-- The sibling lemma extended to the fuelled builder. -/
theorem BuildNode_siblings (t : Ctx) (fuel : ℕ) (path : List (Fin 8)) (O E : V3)
    (pts : List FPointCloudPoint) (sibs : List NodeOut) (st : BuildState) :
    (BuildNode t fuel path O E pts sibs st).2.1 = sibs ∨
    ∃ c p, (BuildNode t fuel path O E pts sibs st).2.1 = mergeIntoHead sibs c p := by
  cases fuel with
  | zero => exact Build_siblings t noChildBuilder path O E pts sibs st
  | succ f => exact Build_siblings t (BuildNode t f) path O E pts sibs st

/-- `Subdivide` keeps the child array invariant-correct, given a builder whose
nodes are shape-correct and whose sibling effect is a head merge at most. -/
theorem Subdivide_shape (t : Ctx) (F : BuildFn)
    (hF1 : ∀ path O E pts sibs st, path.length ≤ t.MaxLOD →
      ShapeOK t path.length (F path O E pts sibs st).1)
    (hF2 : ∀ path O E pts sibs st,
      (F path O E pts sibs st).2.1 = sibs ∨
      ∃ c p, (F path O E pts sibs st).2.1 = mergeIntoHead sibs c p) :
    ∀ (octs path : List (Fin 8)) (pO pE : V3) (pts : List FPointCloudPoint)
      (acc : List NodeOut) (st : BuildState),
      path.length + 1 ≤ t.MaxLOD →
      ChildrenListOK t (path.length + 1) acc →
      ChildrenListOK t (path.length + 1) (Subdivide F path pO pE pts octs acc st).1 := by
  intro octs
  induction octs with
  | nil =>
    intro path pO pE pts acc st hd hacc
    simpa [Subdivide] using hacc
  | cons i rest ih =>
    intro path pO pE pts acc st hd hacc
    simp only [Subdivide]
    apply ih path pO pE pts _ _ hd
    apply ChildrenListOK_linkChild
    · rcases hF2 (path ++ [i]) (octantBox ⟨pO, pE⟩ i).Origin (octantBox ⟨pO, pE⟩ i).BoxExtent
        pts acc st with heq | ⟨c, p, heq⟩
      · rw [heq]; exact hacc
      · rw [heq]; exact ChildrenListOK_mergeIntoHead c p hacc
    · intro _
      have hs := hF1 (path ++ [i]) (octantBox ⟨pO, pE⟩ i).Origin
        (octantBox ⟨pO, pE⟩ i).BoxExtent pts acc st (by simpa using hd)
      simpa using hs

/-- `Build` produces a shape-correct node at any depth within the ceiling. -/
theorem Build_shape (t : Ctx) (F : BuildFn)
    (hF1 : ∀ path O E pts sibs st, path.length ≤ t.MaxLOD →
      ShapeOK t path.length (F path O E pts sibs st).1)
    (hF2 : ∀ path O E pts sibs st,
      (F path O E pts sibs st).2.1 = sibs ∨
      ∃ c p, (F path O E pts sibs st).2.1 = mergeIntoHead sibs c p) :
    ∀ path O E pts sibs st, path.length ≤ t.MaxLOD →
      ShapeOK t path.length (Build t F path O E pts sibs st).1 := by
  intro path O E pts sibs st hd
  simp only [Build]
  by_cases hq : t.MinimumNodePointCount ≤
      (filterPoints st.ReservedPoints path (V3.sub O E) (V3.add O E) pts).1.length
  · rw [if_pos hq]
    by_cases hlt : path.length < t.MaxLOD
    · rw [if_pos hlt]
      apply ShapeOK_node t path.length O E _ _ _ _ hd
      · exact Subdivide_shape t F hF1 hF2 _ path O E _ [] _ (by omega)
          (ChildrenListOK_nil t _)
      · intro h; omega
    · rw [if_neg hlt]
      apply ShapeOK_node t path.length O E _ _ _ _ hd
      · exact ChildrenListOK_nil t _
      · intro _; rfl
  · rw [if_neg hq]
    exact ShapeOK_sentinel t path.length O E

/-- The fuelled builder produces shape-correct nodes. -/
theorem BuildNode_shape (t : Ctx) :
    ∀ (fuel : ℕ) (path : List (Fin 8)) (O E : V3) (pts : List FPointCloudPoint)
      (sibs : List NodeOut) (st : BuildState), path.length ≤ t.MaxLOD →
      ShapeOK t path.length (BuildNode t fuel path O E pts sibs st).1 := by
  intro fuel
  induction fuel with
  | zero =>
    exact Build_shape t noChildBuilder
      (fun path O E pts sibs st _ => ShapeOK_sentinel t path.length O E)
      (fun path O E pts sibs st => Or.inl rfl)
  | succ f ih =>
    exact Build_shape t (BuildNode t f) ih (BuildNode_siblings t f)

/-- The root of any scheduled rebuild is shape-correct (the error path yields
the childless default node). -/
theorem rebuildRoot_shape (σ : List (Fin 8)) (a : AssetParams) :
    ShapeOK (rebuildCtx σ a) 0 (rebuildRootSched σ a) := by
  unfold rebuildRootSched RebuildSched
  by_cases hg : a.LODCount - 1 < 0
  · rw [if_pos hg]
    intro k m hd
    obtain ⟨rfl, rfl⟩ := hd.of_no_children rfl
    left
    exact ⟨rfl, rfl, rfl⟩
  · rw [if_neg hg]
    exact BuildNode_shape (rebuildCtx σ a) (assetMaxLOD a + 1) [] _ _ a.Points []
      (initialState a) (Nat.zero_le _)

/-- C2: for every node linked into a rebuilt tree — every node reached from
the root by child links whose LOD is not the sentinel — the LOD equals
`maxLOD` minus the node's depth without truncation, where the root has depth 0
and following one child link adds exactly 1 to the depth (the `Descendant`
index); every such node's depth is at most `maxLOD`, and once the depth equals
`maxLOD` the node has no children (none are attempted). -/
theorem C2_lod_equals_maxlod_minus_depth (σ : List (Fin 8)) (a : AssetParams)
    (k : ℕ) (m : NodeOut) (hd : Descendant k (rebuildRootSched σ a) m)
    (hm : m.LOD ≠ UINT_MAX) :
    m.LOD = assetMaxLOD a - k ∧ m.LOD + k = assetMaxLOD a ∧ k ≤ assetMaxLOD a ∧
    (k = assetMaxLOD a → m.Children = []) := by
  have hs := rebuildRoot_shape σ a k m hd
  rcases hs with ⟨h1, _, _⟩ | ⟨h1, h2, h3, _, _⟩
  · exact absurd h1 hm
  · simp only [rebuildCtx, zero_add] at h1 h2 h3
    exact ⟨h1, h2, by omega, h3⟩

/-- C2 witness: the LOD/depth law applied to the root of a concrete two-level
rebuild (`maxLOD = 1`), whose root carries LOD 1 at depth 0. -/
theorem C2_lod_equals_maxlod_minus_depth_witness :
    (rebuildRootSched stdOctants assetTwoOctants).LOD = assetMaxLOD assetTwoOctants - 0 ∧
    (rebuildRootSched stdOctants assetTwoOctants).LOD + 0 = assetMaxLOD assetTwoOctants ∧
    0 ≤ assetMaxLOD assetTwoOctants ∧
    (0 = assetMaxLOD assetTwoOctants →
      (rebuildRootSched stdOctants assetTwoOctants).Children = []) :=
  C2_lod_equals_maxlod_minus_depth stdOctants assetTwoOctants 0 _
    (Descendant.here _) (by decide)

/-- C3 counterexample: the claim's conclusion "the finished tree contains no
node with the sentinel LOD" fails at the root: rebuilding an empty cloud with
`MinimumNodePointCount = 1` succeeds (the guard passes), the root region does
not qualify, and `Rebuild` keeps that root node in place, so the finished tree
consists of exactly one node whose LOD is the sentinel `UINT_MAX`. -/
theorem C3_empty_node_discarded_cex :
    (Rebuild assetEmpty).isOk = true ∧
    (rebuildOk assetEmpty).Root.LOD = UINT_MAX ∧
    (rebuildOk assetEmpty).Root.Children.length = 0 := by
  refine ⟨by decide, by decide, by decide⟩

/-- C3 amended: a candidate region with fewer filtered-and-unclaimed points
than `MinimumNodePointCount` produces a node that keeps the sentinel LOD and
performs no further work — no reservation bits set, no cache built, no
statistics update, no children, siblings untouched; only the ghost log of the
filter's `IsPointUsed` queries grows — and `Subdivide_Thread` never links such
a node into a parent's child slots, so no node in any child slot of the
finished tree has the sentinel LOD.  The root, however, is kept by `Rebuild`
even when it does not qualify, so a cloud with fewer than
`MinimumNodePointCount` points leaves the tree's root with the sentinel LOD. -/
theorem C3_empty_node_discarded_amended :
    (∀ (t : Ctx) (F : BuildFn) (path : List (Fin 8)) (O E : V3)
      (pts : List FPointCloudPoint) (sibs : List NodeOut) (st : BuildState),
      ¬ t.MinimumNodePointCount ≤
        (filterPoints st.ReservedPoints path (V3.sub O E) (V3.add O E) pts).1.length →
      (Build t F path O E pts sibs st).1.LOD = UINT_MAX ∧
      (Build t F path O E pts sibs st).1.Children = [] ∧
      (Build t F path O E pts sibs st).1.IBCache = [] ∧
      (Build t F path O E pts sibs st).1.NumPrimitives = 0 ∧
      (Build t F path O E pts sibs st).2.1 = sibs ∧
      (Build t F path O E pts sibs st).2.2 =
        { st with usedQueries := st.usedQueries ++
            (filterPoints st.ReservedPoints path (V3.sub O E) (V3.add O E) pts).2 }) ∧
    (∀ (σ : List (Fin 8)) (a : AssetParams) (k : ℕ) (m : NodeOut),
      Descendant k (rebuildRootSched σ a) m → ∀ c ∈ m.Children, c.LOD ≠ UINT_MAX) := by
  constructor
  · intro t F path O E pts sibs st h
    simp only [Build]
    rw [if_neg h]
    exact ⟨rfl, rfl, rfl, rfl, rfl, rfl⟩
  · intro σ a k m hd c hc
    have hs := rebuildRoot_shape σ a k m hd
    rcases hs with ⟨_, _, hnil⟩ | ⟨_, _, _, h4, _⟩
    · rw [hnil] at hc
      exact absurd hc (List.not_mem_nil c)
    · exact h4 c hc

/-- C3 witness: the amended statement applied, first, to the root call of the
empty-cloud rebuild (whose region does not qualify), and, second, to the
children of the root of a two-level rebuild. -/
theorem C3_empty_node_discarded_amended_witness :
    (Build (rebuildCtx stdOctants assetEmpty) noChildBuilder [] ⟨0, 0, 0⟩ ⟨1, 1, 1⟩ [] []
        (initialState assetEmpty)).1.LOD = UINT_MAX ∧
    (∀ c ∈ (rebuildRootSched stdOctants assetTwoOctants).Children, c.LOD ≠ UINT_MAX) :=
  ⟨((C3_empty_node_discarded_amended.1 (rebuildCtx stdOctants assetEmpty) noChildBuilder
      [] ⟨0, 0, 0⟩ ⟨1, 1, 1⟩ [] [] (initialState assetEmpty)) (by decide)).1,
   C3_empty_node_discarded_amended.2 stdOctants assetTwoOctants 0 _ (Descendant.here _)⟩

/-- C8 counterexample: the resulting tree shape is not independent of how the
8 root-level tasks are scheduled.  With two points in two different octants
and every other parameter identical, running the root tasks in the order
`0,1,...` links octant 0's child into slot 0, while running them in the order
`1,0,...` links octant 1's child into slot 0: the children's slot positions
(and hence the per-slot origins) differ between the two schedules. -/
theorem C8_schedule_cex :
    (rebuildRootSched stdOctants assetTwoOctants).Children.map NodeOut.Origin =
      [⟨-1/2, -1/2, -1/2⟩, ⟨1/2, -1/2, -1/2⟩] ∧
    (rebuildRootSched swappedOrder assetTwoOctants).Children.map NodeOut.Origin =
      [⟨1/2, -1/2, -1/2⟩, ⟨-1/2, -1/2, -1/2⟩] ∧
    (rebuildRootSched stdOctants assetTwoOctants).Children.map NodeOut.Origin ≠
      (rebuildRootSched swappedOrder assetTwoOctants).Children.map NodeOut.Origin := by
  refine ⟨by decide, by decide, by decide⟩

/-- C8 amended: a rebuild is deterministic only relative to the order in which
the 8 root-level tasks complete and link their children; the children of every
node occupy consecutive `ChildIndex` slots `0..n-1` in completion order, but
different completion orders may place different octants in those slots (and,
for points on shared faces, may assign the points to different octants), so
tree shape is not independent of scheduling. -/
theorem C8_schedule_amended (σ : List (Fin 8)) (a : AssetParams) (k : ℕ)
    (m : NodeOut) (hd : Descendant k (rebuildRootSched σ a) m) :
    ∀ j, j < m.Children.length → (m.Children.getD j default).ChildIndex = j := by
  have hs := rebuildRoot_shape σ a k m hd
  rcases hs with ⟨_, _, hnil⟩ | ⟨_, _, _, _, h5⟩
  · rw [hnil]
    intro j hj
    exact absurd hj (by simp)
  · exact h5

/-- C8 witness: the slot law applied to the root of the two-octant rebuild
under the swapped completion order, at slot 1. -/
theorem C8_schedule_amended_witness :
    ((rebuildRootSched swappedOrder assetTwoOctants).Children.getD 1 default).ChildIndex = 1 :=
  C8_schedule_amended swappedOrder assetTwoOctants 0 _ (Descendant.here _) 1 (by decide)

/-!  Cache-length / primitive-count ratio (claim C10). -/

/-- The sampling loop keeps the cache length at `cacheMult` indices per
primitive. -/
theorem ibLoop_ratio (t : Ctx) (LOD : ℕ) (pts : List FPointCloudPoint) :
    ∀ (fuel : ℕ) (i : ℚ),
      (ibLoop t LOD pts fuel i).1.length = cacheMult t * (ibLoop t LOD pts fuel i).2 := by
  intro fuel
  induction fuel with
  | zero => intro i; simp [ibLoop]
  | succ f ih =>
    intro i
    by_cases h : i < (pts.length : ℚ)
    · simp only [ibLoop, if_pos h]
      by_cases hs : t.bUsesSprites
      · by_cases hl : t.SinglePolySpriteMinimumLOD ≤ LOD
        · simp [cacheMult, hs, hl, ih]
          omega
        · simp [cacheMult, hs, hl, ih]
          omega
      · simp [cacheMult, hs, ih]
    · simp [ibLoop, if_neg h]

/-- The cache data of one `BuildIBCache` run obeys the ratio. -/
theorem ibCacheData_ratio (t : Ctx) (LOD : ℕ) (pts : List FPointCloudPoint) :
    (ibCacheData t LOD pts).1.length = cacheMult t * (ibCacheData t LOD pts).2 :=
  ibLoop_ratio t LOD pts pts.length 0

/-- Appending ratio-correct data to a ratio-correct node preserves the
invariant. -/
theorem RatioOK_appendCache {mult : ℕ} {n : NodeOut} {c : List ℕ} {p : ℕ}
    (h : RatioOK mult n) (hc : c.length = mult * p) :
    RatioOK mult (n.appendCache c p) := by
  intro k m hd
  cases hd with
  | here =>
    have h0 := h 0 n (.here n)
    rw [NodeOut.appendCache_IBCache, NodeOut.appendCache_NumPrimitives,
      List.length_append, h0, hc]
    ring
  | child hmem hd' =>
    rw [NodeOut.appendCache_Children] at hmem
    exact h _ m (.child hmem hd')

/-- Re-slotting preserves the ratio invariant. -/
theorem RatioOK_setChildIndex {mult : ℕ} {n : NodeOut} (i : ℕ)
    (h : RatioOK mult n) : RatioOK mult (n.setChildIndex i) := by
  intro k m hd
  cases hd with
  | here =>
    have h0 := h 0 n (.here n)
    rw [NodeOut.setChildIndex_IBCache, NodeOut.setChildIndex_NumPrimitives]
    exact h0
  | child hmem hd' =>
    rw [NodeOut.setChildIndex_Children] at hmem
    exact h _ m (.child hmem hd')

/-- A node assembled from ratio-correct pieces is ratio-correct. -/
theorem RatioOK_node (mult LOD : ℕ) (O E : V3) (cache : List ℕ)
    (prims cidx : ℕ) (children : List NodeOut)
    (hself : cache.length = mult * prims)
    (hch : ∀ c ∈ children, RatioOK mult c) :
    RatioOK mult (NodeOut.mk LOD O E cache prims cidx children) := by
  intro k m hd
  cases hd with
  | here => simpa [NodeOut.IBCache, NodeOut.NumPrimitives] using hself
  | child hmem hd' =>
    rename_i c k'
    exact hch c (by simpa [NodeOut.Children] using hmem) k' m hd'

/-- Merging ratio-correct data into the head slot preserves the list
invariant. -/
theorem mergeIntoHead_ratio {mult : ℕ} {l : List NodeOut} {c : List ℕ} {p : ℕ}
    (h : ∀ n ∈ l, RatioOK mult n) (hc : c.length = mult * p) :
    ∀ n ∈ mergeIntoHead l c p, RatioOK mult n := by
  cases l with
  | nil => exact h
  | cons a as =>
    intro n hn
    simp only [mergeIntoHead, List.mem_cons] at hn
    rcases hn with rfl | hn
    · exact RatioOK_appendCache (h a (List.mem_cons_self a as)) hc
    · exact h n (List.mem_cons_of_mem a hn)

/-- Linking a ratio-correct child preserves the list invariant. -/
theorem linkChild_ratio {mult : ℕ} {acc : List NodeOut} {child : NodeOut}
    (h : ∀ n ∈ acc, RatioOK mult n) (hc : RatioOK mult child) :
    ∀ n ∈ linkChild acc child, RatioOK mult n := by
  unfold linkChild
  by_cases hl : child.LOD == UINT_MAX
  · rw [if_pos hl]; exact h
  · rw [if_neg hl]
    intro n hn
    rcases List.mem_append.mp hn with hn | hn
    · exact h n hn
    · rcases List.mem_singleton.mp hn with rfl
      exact RatioOK_setChildIndex _ hc

/-- The data `BuildIBCache` leaves on the node itself obeys the ratio. -/
theorem BuildIBCache_self_ratio (t : Ctx) (LOD : ℕ) (hp : Bool)
    (pts : List FPointCloudPoint) (sibs : List NodeOut) :
    (BuildIBCache t LOD hp pts sibs).Cache.length =
      cacheMult t * (BuildIBCache t LOD hp pts sibs).Prims := by
  simp only [BuildIBCache]
  by_cases hm : (LOD == 0 && hp && !sibs.isEmpty && decide (1 < t.MaxLOD)) = true
  · rw [if_pos hm]
    simp
  · rw [if_neg hm]
    exact ibCacheData_ratio t LOD pts

/-- The sibling effect of `BuildIBCache` is at most a head merge of
ratio-correct data. -/
theorem BuildIBCache_siblings_ratio (t : Ctx) (LOD : ℕ) (hp : Bool)
    (pts : List FPointCloudPoint) (sibs : List NodeOut) :
    (BuildIBCache t LOD hp pts sibs).Siblings = sibs ∨
    ∃ c p, c.length = cacheMult t * p ∧
      (BuildIBCache t LOD hp pts sibs).Siblings = mergeIntoHead sibs c p := by
  simp only [BuildIBCache]
  by_cases hm : (LOD == 0 && hp && !sibs.isEmpty && decide (1 < t.MaxLOD)) = true
  · rw [if_pos hm]
    right
    exact ⟨_, _, ibCacheData_ratio t LOD pts, rfl⟩
  · rw [if_neg hm]
    left
    rfl

/-- The sibling effect of `Build` is at most a head merge of ratio-correct
data, for any child builder. -/
theorem Build_siblings_ratio (t : Ctx) (F : BuildFn) (path : List (Fin 8))
    (O E : V3) (pts : List FPointCloudPoint) (sibs : List NodeOut)
    (st : BuildState) :
    (Build t F path O E pts sibs st).2.1 = sibs ∨
    ∃ c p, c.length = cacheMult t * p ∧
      (Build t F path O E pts sibs st).2.1 = mergeIntoHead sibs c p := by
  simp only [Build]
  by_cases hq : t.MinimumNodePointCount ≤
      (filterPoints st.ReservedPoints path (V3.sub O E) (V3.add O E) pts).1.length
  · rw [if_pos hq]
    exact BuildIBCache_siblings_ratio t _ _ _ sibs
  · rw [if_neg hq]
    left
    rfl

/-- The fuelled builder's sibling effect is at most a ratio-correct head
merge. -/
theorem BuildNode_siblings_ratio (t : Ctx) (fuel : ℕ) (path : List (Fin 8))
    (O E : V3) (pts : List FPointCloudPoint) (sibs : List NodeOut)
    (st : BuildState) :
    (BuildNode t fuel path O E pts sibs st).2.1 = sibs ∨
    ∃ c p, c.length = cacheMult t * p ∧
      (BuildNode t fuel path O E pts sibs st).2.1 = mergeIntoHead sibs c p := by
  cases fuel with
  | zero => exact Build_siblings_ratio t noChildBuilder path O E pts sibs st
  | succ f => exact Build_siblings_ratio t (BuildNode t f) path O E pts sibs st

/-- `Subdivide` preserves the ratio invariant of the child array. -/
theorem Subdivide_ratio (t : Ctx) (F : BuildFn)
    (hF1 : ∀ path O E pts sibs st, RatioOK (cacheMult t) (F path O E pts sibs st).1)
    (hF2 : ∀ path O E pts sibs st,
      (F path O E pts sibs st).2.1 = sibs ∨
      ∃ c p, c.length = cacheMult t * p ∧
        (F path O E pts sibs st).2.1 = mergeIntoHead sibs c p) :
    ∀ (octs path : List (Fin 8)) (pO pE : V3) (pts : List FPointCloudPoint)
      (acc : List NodeOut) (st : BuildState),
      (∀ n ∈ acc, RatioOK (cacheMult t) n) →
      ∀ n ∈ (Subdivide F path pO pE pts octs acc st).1, RatioOK (cacheMult t) n := by
  intro octs
  induction octs with
  | nil =>
    intro path pO pE pts acc st hacc
    simpa [Subdivide] using hacc
  | cons i rest ih =>
    intro path pO pE pts acc st hacc
    simp only [Subdivide]
    apply ih path pO pE pts _ _
    apply linkChild_ratio
    · rcases hF2 (path ++ [i]) (octantBox ⟨pO, pE⟩ i).Origin
        (octantBox ⟨pO, pE⟩ i).BoxExtent pts acc st with heq | ⟨c, p, hcp, heq⟩
      · rw [heq]; exact hacc
      · rw [heq]; exact mergeIntoHead_ratio hacc hcp
    · exact hF1 _ _ _ _ _ _

/-- `Build` produces a ratio-correct node. -/
theorem Build_ratio (t : Ctx) (F : BuildFn)
    (hF1 : ∀ path O E pts sibs st, RatioOK (cacheMult t) (F path O E pts sibs st).1)
    (hF2 : ∀ path O E pts sibs st,
      (F path O E pts sibs st).2.1 = sibs ∨
      ∃ c p, c.length = cacheMult t * p ∧
        (F path O E pts sibs st).2.1 = mergeIntoHead sibs c p) :
    ∀ path O E pts sibs st, RatioOK (cacheMult t) (Build t F path O E pts sibs st).1 := by
  intro path O E pts sibs st
  simp only [Build]
  by_cases hq : t.MinimumNodePointCount ≤
      (filterPoints st.ReservedPoints path (V3.sub O E) (V3.add O E) pts).1.length
  · rw [if_pos hq]
    apply RatioOK_node
    · exact BuildIBCache_self_ratio t _ _ _ sibs
    · by_cases hlt : path.length < t.MaxLOD
      · rw [if_pos hlt]
        exact Subdivide_ratio t F hF1 hF2 _ path O E _ []
          _ (fun n hn => absurd hn (List.not_mem_nil n))
      · rw [if_neg hlt]
        exact fun n hn => absurd hn (List.not_mem_nil n)
  · rw [if_neg hq]
    apply RatioOK_node
    · simp
    · exact fun n hn => absurd hn (List.not_mem_nil n)

/-- The fuelled builder produces ratio-correct nodes. -/
theorem BuildNode_ratio (t : Ctx) :
    ∀ (fuel : ℕ) (path : List (Fin 8)) (O E : V3) (pts : List FPointCloudPoint)
      (sibs : List NodeOut) (st : BuildState),
      RatioOK (cacheMult t) (BuildNode t fuel path O E pts sibs st).1 := by
  intro fuel
  induction fuel with
  | zero =>
    apply Build_ratio t noChildBuilder
    · intro path O E pts sibs st
      apply RatioOK_node
      · simp
      · exact fun n hn => absurd hn (List.not_mem_nil n)
    · exact fun path O E pts sibs st => Or.inl rfl
  | succ f ih =>
    exact Build_ratio t (BuildNode t f) ih (BuildNode_siblings_ratio t f)

/-- C10: after a (scheduled) rebuild, every node of the finished tree has an
index-buffer cache whose length equals its primitive count without sprites,
and three times its primitive count with sprites; and a node whose render data
was merged away into a sibling (when `BuildIBCache` reports the cache was not
stored on `this`) keeps an empty cache and a primitive count of zero. -/
theorem C10_cache_length_ratio :
    (∀ (σ : List (Fin 8)) (a : AssetParams) (k : ℕ) (m : NodeOut),
      Descendant k (rebuildRootSched σ a) m →
      m.IBCache.length = (if a.bUsesSprites then 3 else 1) * m.NumPrimitives) ∧
    (∀ (t : Ctx) (LOD : ℕ) (hp : Bool) (pts : List FPointCloudPoint)
      (sibs : List NodeOut),
      (BuildIBCache t LOD hp pts sibs).StoredOnSelf = false →
      (BuildIBCache t LOD hp pts sibs).Cache = [] ∧
      (BuildIBCache t LOD hp pts sibs).Prims = 0) := by
  constructor
  · intro σ a k m hd
    have hratio : RatioOK (cacheMult (rebuildCtx σ a)) (rebuildRootSched σ a) := by
      unfold rebuildRootSched RebuildSched
      by_cases hg : a.LODCount - 1 < 0
      · rw [if_pos hg]
        intro k' m' hd'
        obtain ⟨rfl, rfl⟩ := hd'.of_no_children rfl
        rfl
      · rw [if_neg hg]
        exact BuildNode_ratio (rebuildCtx σ a) (assetMaxLOD a + 1) [] _ _ a.Points []
          (initialState a)
    exact hratio k m hd
  · intro t LOD hp pts sibs h
    simp only [BuildIBCache] at h ⊢
    by_cases hm : (LOD == 0 && hp && !sibs.isEmpty && decide (1 < t.MaxLOD)) = true
    · rw [if_pos hm]
      exact ⟨rfl, rfl⟩
    · rw [if_neg hm] at h
      exact absurd h (by simp)

/-- C10 witness: the ratio applied to the root of a concrete two-level
rebuild, and the merged-away clause applied to a concrete finest-LOD cache
call whose data goes to the already-linked first sibling. -/
theorem C10_cache_length_ratio_witness :
    (rebuildRootSched stdOctants assetTwoOctants).IBCache.length =
      (if assetTwoOctants.bUsesSprites then 3 else 1) *
        (rebuildRootSched stdOctants assetTwoOctants).NumPrimitives ∧
    (BuildIBCache (rebuildCtx stdOctants assetThreeLod) 0 true [] [default]).Cache = [] ∧
    (BuildIBCache (rebuildCtx stdOctants assetThreeLod) 0 true [] [default]).Prims = 0 := by
  refine ⟨C10_cache_length_ratio.1 stdOctants assetTwoOctants 0 _ (Descendant.here _), ?_, ?_⟩
  · exact (C10_cache_length_ratio.2 (rebuildCtx stdOctants assetThreeLod) 0 true [] [default]
      (by decide)).1
  · exact (C10_cache_length_ratio.2 (rebuildCtx stdOctants assetThreeLod) 0 true [] [default]
      (by decide)).2

/-!  Cache-target selection and the return value of `BuildIBCache`
(claim C7). -/

/-- C7 counterexample.  First: the claim's cache-target rule ("…unless the
node has LOD 0, has a parent, and the tree's maxLOD is greater than 1, in
which case they are folded into the parent's first populated child slot")
omits the `Parent->NumChildren` conjunct of line 163: for the first
finest-LOD child candidate of a parent the parent has no populated child slot
yet, the claimed condition (LOD 0, parent present, maxLOD = 2 > 1) holds, and
the cache is nevertheless stored on `this` (`StoredOnSelf = true`).  Second:
the claim says the caller uses the return value to decide whether the node
counts toward level statistics as a data-holding cell; line 87 discards the
return value, and the decision actually follows the primitive count inside
`AddStats`: a qualifying root with zero points (minimum 0) gets `true` from
`BuildIBCache` yet is recorded as a non-data-holding cell
(`NumCells = 1`, `PointCount = 0`). -/
theorem C7_cache_target_cex :
    ((BuildIBCache (rebuildCtx stdOctants assetThreeLod) 0 true [] []).StoredOnSelf = true ∧
      (0 : ℕ) = 0 ∧ (true : Bool) = true ∧
      1 < (rebuildCtx stdOctants assetThreeLod).MaxLOD) ∧
    ((BuildIBCache (rebuildCtx stdOctants assetMinZero) 0 false [] []).StoredOnSelf = true ∧
      (Rebuild assetMinZero).isOk = true ∧
      (rebuildOk assetMinZero).Stats.getD 0 default = ⟨1, 0, 0, 0⟩) := by
  refine ⟨⟨by decide, rfl, rfl, by decide⟩, by decide, by decide, by decide⟩

/-- C7 amended: `BuildIBCache` writes the cache and primitive count to this
node unless the node has LOD 0, has a parent with at least one already-linked
child, and the tree's maxLOD is greater than 1, in which case they are folded
into the parent's first child slot and this node keeps an empty cache and a
zero primitive count; it returns true exactly when the cache was stored on
this node.  The caller discards that return value: whether a node counts
toward level statistics as a data-holding cell is decided inside `AddStats` by
the node's sprite-halved primitive count being nonzero — every call counts the
cell, and a zero halved count leaves the level's point statistics untouched. -/
theorem C7_cache_target_amended :
    (∀ (t : Ctx) (LOD : ℕ) (hp : Bool) (pts : List FPointCloudPoint)
      (sibs : List NodeOut),
      ((BuildIBCache t LOD hp pts sibs).StoredOnSelf = true ↔
        ¬(LOD = 0 ∧ hp = true ∧ sibs ≠ [] ∧ 1 < t.MaxLOD)) ∧
      ((LOD = 0 ∧ hp = true ∧ sibs ≠ [] ∧ 1 < t.MaxLOD) →
        (BuildIBCache t LOD hp pts sibs).Cache = [] ∧
        (BuildIBCache t LOD hp pts sibs).Prims = 0 ∧
        (BuildIBCache t LOD hp pts sibs).Siblings =
          mergeIntoHead sibs (ibCacheData t LOD pts).1 (ibCacheData t LOD pts).2) ∧
      (¬(LOD = 0 ∧ hp = true ∧ sibs ≠ [] ∧ 1 < t.MaxLOD) →
        (BuildIBCache t LOD hp pts sibs).Cache = (ibCacheData t LOD pts).1 ∧
        (BuildIBCache t LOD hp pts sibs).Prims = (ibCacheData t LOD pts).2 ∧
        (BuildIBCache t LOD hp pts sibs).Siblings = sibs)) ∧
    (∀ (t : Ctx) (Stats : List LodStat) (Depth p : ℕ), Depth < Stats.length →
      ((AddStats t Stats Depth p).getD Depth default).NumCells =
        (Stats.getD Depth default).NumCells + 1 ∧
      ((if t.bUsesSprites && decide (t.MaxLOD - Depth < t.SinglePolySpriteMinimumLOD)
          then p / 2 else p) = 0 →
        ((AddStats t Stats Depth p).getD Depth default).PointCount =
          (Stats.getD Depth default).PointCount)) := by
  constructor
  · intro t LOD hp pts sibs
    have hcond : (LOD == 0 && hp && !sibs.isEmpty && decide (1 < t.MaxLOD)) = true ↔
        (LOD = 0 ∧ hp = true ∧ sibs ≠ [] ∧ 1 < t.MaxLOD) := by
      cases hp <;> cases sibs <;> simp [List.isEmpty]
    refine ⟨?_, ?_, ?_⟩
    · simp only [BuildIBCache]
      by_cases hm : (LOD == 0 && hp && !sibs.isEmpty && decide (1 < t.MaxLOD)) = true
      · rw [if_pos hm]
        simp only [hcond] at hm
        simpa using hm
      · rw [if_neg hm]
        simp only [hcond] at hm
        simpa using hm
    · intro h
      simp only [BuildIBCache, if_pos (hcond.mpr h)]
      exact ⟨trivial, trivial, trivial⟩
    · intro h
      have hm : ¬ (LOD == 0 && hp && !sibs.isEmpty && decide (1 < t.MaxLOD)) = true := by
        rw [hcond]; exact h
      simp only [BuildIBCache, if_neg hm]
      exact ⟨trivial, trivial, trivial⟩
  · intro t Stats Depth p hlen
    simp only [AddStats]
    rw [List.getD_eq_getElem?_getD, List.getElem?_set_eq_of_lt _ hlen]
    by_cases hz : (if t.bUsesSprites && decide (t.MaxLOD - Depth < t.SinglePolySpriteMinimumLOD)
        then p / 2 else p) = 0
    · rw [if_neg (by simpa using hz)]
      exact ⟨rfl, fun _ => rfl⟩
    · rw [if_pos (by simpa using hz)]
      exact ⟨rfl, fun h => absurd h hz⟩

/-- C7 witness: the amended characterisation applied to a concrete merging
call (finest-LOD node with a linked sibling under `maxLOD = 2`) and to a
concrete zero-primitive statistics update. -/
theorem C7_cache_target_amended_witness :
    ((BuildIBCache (rebuildCtx stdOctants assetThreeLod) 0 true [] [default]).Cache = [] ∧
      (BuildIBCache (rebuildCtx stdOctants assetThreeLod) 0 true [] [default]).Prims = 0 ∧
      (BuildIBCache (rebuildCtx stdOctants assetThreeLod) 0 true [] [default]).Siblings =
        mergeIntoHead [default]
          (ibCacheData (rebuildCtx stdOctants assetThreeLod) 0 []).1
          (ibCacheData (rebuildCtx stdOctants assetThreeLod) 0 []).2) ∧
    (((AddStats (rebuildCtx stdOctants assetEmpty) [default] 0 0).getD 0 default).NumCells =
        (([default] : List LodStat).getD 0 default).NumCells + 1 ∧
      ((AddStats (rebuildCtx stdOctants assetEmpty) [default] 0 0).getD 0 default).PointCount =
        (([default] : List LodStat).getD 0 default).PointCount) := by
  refine ⟨(C7_cache_target_amended.1 (rebuildCtx stdOctants assetThreeLod) 0 true []
      [default]).2.1 ⟨rfl, rfl, by simp, by decide⟩, ?_, ?_⟩
  · exact ((C7_cache_target_amended.2 (rebuildCtx stdOctants assetEmpty) [default] 0 0)
      (by decide)).1
  · exact ((C7_cache_target_amended.2 (rebuildCtx stdOctants assetEmpty) [default] 0 0)
      (by decide)).2 (by decide)

/-!  Depth arguments of the reservation-bitmap calls (claim C9). -/

/-- C9: the build does reach the reservation bitmap with `Depth = 0`,
contradicting the source comment ("this will only ever be used by nodes with
depth of 1+") restated by the claim.  On the concrete asset with one interior
point and one point on the root box's minimum corner, the qualifying root node
(path `[]`, depth 0) calls `SetPointUsed` with depth 0 for its accepted
interior point, and its filter calls `IsPointUsed` with depth 0 for the
corner point (which lies on the root box's faces), so `1 << (Depth - 1)` is
evaluated with the out-of-range shift count `(uint32)(-1)`. -/
theorem C9_depth_zero_reservation_calls :
    ResEvent.mk [] ⟨⟨0, 0, 0⟩, 5⟩ ∈ (rebuildOk assetDepth0).resEvents ∧
    (ResEvent.mk [] ⟨⟨0, 0, 0⟩, 5⟩).path.length = 0 ∧
    UsedQuery.mk [] ⟨⟨-1, -1, -1⟩, 7⟩ ∈ (rebuildOk assetDepth0).usedQueries ∧
    (UsedQuery.mk [] ⟨⟨-1, -1, -1⟩, 7⟩).path.length = 0 := by
  refine ⟨by decide, rfl, by decide, rfl⟩

/-!  Reservation-bitmap lemmas (claim C1). -/

/-- Setting bits of a field keeps the masked test satisfied. -/
theorem or_and_mask (x m : ℕ) : (x ||| m) &&& m = m := by
  apply Nat.eq_of_testBit_eq
  intro i
  simp only [Nat.testBit_and, Nat.testBit_or]
  cases h : m.testBit i <;> simp [h]

/-- A satisfied masked test survives setting further bits. -/
theorem and_mask_or (x y m : ℕ) (h : x &&& m = m) : (x ||| y) &&& m = m := by
  apply Nat.eq_of_testBit_eq
  intro i
  have hx := congrArg (fun n => n.testBit i) h
  simp only [Nat.testBit_and] at hx
  simp only [Nat.testBit_and, Nat.testBit_or]
  cases hm : m.testBit i
  · simp [hm]
  · rw [hm] at hx
    simp only [Bool.and_true] at hx
    simp [hm, hx]

/-- `SetPointUsed` makes the corresponding `IsPointUsed` test succeed. -/
theorem IsPointUsed_SetPointUsed_self (R : ℕ → ℕ) (v d : ℕ) :
    IsPointUsed (SetPointUsed R v d) v d = true := by
  unfold IsPointUsed SetPointUsed
  simp only [if_pos rfl, beq_iff_eq]
  exact or_and_mask _ _

/-- `SetPointUsed` never clears a satisfied `IsPointUsed` test. -/
theorem IsPointUsed_SetPointUsed_mono (R : ℕ → ℕ) (v d v' d' : ℕ)
    (h : IsPointUsed R v d = true) : IsPointUsed (SetPointUsed R v' d') v d = true := by
  unfold IsPointUsed at h ⊢
  unfold SetPointUsed
  by_cases hv : v = v'
  · rw [if_pos hv, beq_iff_eq]
    apply and_mask_or
    simpa [beq_iff_eq] using h
  · rw [if_neg hv]
    exact h

/-- The reservation fold of `Node::Build` never clears a satisfied test. -/
theorem foldl_SetPointUsed_mono (d : ℕ) (l : List FPointCloudPoint) :
    ∀ (R : ℕ → ℕ) (v dd : ℕ), IsPointUsed R v dd = true →
      IsPointUsed (l.foldl (fun R p => SetPointUsed R p.VertexIndex d) R) v dd = true := by
  induction l with
  | nil => intro R v dd h; exact h
  | cons p rest ih =>
    intro R v dd h
    exact ih _ _ _ (IsPointUsed_SetPointUsed_mono R v dd p.VertexIndex d h)

/-- After the reservation fold every processed point tests as used at the
fold's depth. -/
theorem foldl_SetPointUsed_covers (d : ℕ) (l : List FPointCloudPoint) :
    ∀ (R : ℕ → ℕ) (p : FPointCloudPoint), p ∈ l →
      IsPointUsed (l.foldl (fun R p => SetPointUsed R p.VertexIndex d) R)
        p.VertexIndex d = true := by
  induction l with
  | nil => intro R p hp; exact absurd hp (List.not_mem_nil p)
  | cons q rest ih =>
    intro R p hp
    rcases List.mem_cons.mp hp with rfl | hp
    · exact foldl_SetPointUsed_mono d rest _ _ _ (IsPointUsed_SetPointUsed_self R p.VertexIndex d)
    · exact ih _ p hp

/-!  Filter lemmas (claim C1). -/

/-- Soundness of the point filter: a kept point comes from the input list,
lies in the box, and — when it is not strictly interior, i.e. lies on a face —
was not reserved at this depth at filter time. -/
theorem filterPoints_mem (R : ℕ → ℕ) (path : List (Fin 8)) (Mn Mx : V3) :
    ∀ (pts : List FPointCloudPoint) (p : FPointCloudPoint),
      p ∈ (filterPoints R path Mn Mx pts).1 →
      p ∈ pts ∧ pointInBox Mn Mx p.Location = true ∧
      (pointInterior Mn Mx p.Location = false →
        IsPointUsed R p.VertexIndex path.length = false) := by
  intro pts
  induction pts with
  | nil => intro p hp; exact absurd hp (List.not_mem_nil p)
  | cons q rest ih =>
    intro p hp
    simp only [filterPoints] at hp
    by_cases h1 : pointInBox Mn Mx q.Location = true
    · rw [if_pos h1] at hp
      by_cases h2 : pointInterior Mn Mx q.Location = true
      · rw [if_pos h2] at hp
        rcases List.mem_cons.mp hp with rfl | hp
        · exact ⟨List.mem_cons_self p rest, h1, fun hf => by simp [hf] at h2⟩
        · obtain ⟨ha, hb, hc⟩ := ih p hp
          exact ⟨List.mem_cons_of_mem q ha, hb, hc⟩
      · rw [if_neg h2] at hp
        by_cases h3 : IsPointUsed R q.VertexIndex path.length = true
        · rw [if_pos h3] at hp
          obtain ⟨ha, hb, hc⟩ := ih p hp
          exact ⟨List.mem_cons_of_mem q ha, hb, hc⟩
        · rw [if_neg h3] at hp
          rcases List.mem_cons.mp hp with rfl | hp
          · exact ⟨List.mem_cons_self p rest, h1, fun _ => by simpa using h3⟩
          · obtain ⟨ha, hb, hc⟩ := ih p hp
            exact ⟨List.mem_cons_of_mem q ha, hb, hc⟩
    · rw [if_neg h1] at hp
      obtain ⟨ha, hb, hc⟩ := ih p hp
      exact ⟨List.mem_cons_of_mem q ha, hb, hc⟩

/-- Soundness of the filter's query log: `IsPointUsed` is called exactly for
the in-box points that lie on a face (are not strictly interior), always with
this node's path (depth). -/
theorem filterPoints_queries (R : ℕ → ℕ) (path : List (Fin 8)) (Mn Mx : V3) :
    ∀ (pts : List FPointCloudPoint) (u : UsedQuery),
      u ∈ (filterPoints R path Mn Mx pts).2 →
      u.path = path ∧ pointInBox Mn Mx u.point.Location = true ∧
      pointInterior Mn Mx u.point.Location = false := by
  intro pts
  induction pts with
  | nil => intro u hu; exact absurd hu (List.not_mem_nil u)
  | cons q rest ih =>
    intro u hu
    simp only [filterPoints] at hu
    by_cases h1 : pointInBox Mn Mx q.Location = true
    · rw [if_pos h1] at hu
      by_cases h2 : pointInterior Mn Mx q.Location = true
      · rw [if_pos h2] at hu
        exact ih u hu
      · rw [if_neg h2] at hu
        by_cases h3 : IsPointUsed R q.VertexIndex path.length = true
        · rw [if_pos h3] at hu
          rcases List.mem_cons.mp hu with rfl | hu
          · exact ⟨rfl, h1, by simpa using h2⟩
          · exact ih u hu
        · rw [if_neg h3] at hu
          rcases List.mem_cons.mp hu with rfl | hu
          · exact ⟨rfl, h1, by simpa using h2⟩
          · exact ih u hu
    · rw [if_neg h1] at hu
      exact ih u hu

/-!  Path-prefix lemmas (claim C1). -/

theorem pathLe_refl (q : List (Fin 8)) : pathLe q q := ⟨[], by simp⟩

theorem pathLe_extend {path q : List (Fin 8)} {i : Fin 8}
    (h : pathLe (path ++ [i]) q) : pathLe path q := by
  obtain ⟨r, rfl⟩ := h
  exact ⟨[i] ++ r, by simp⟩

theorem pathLe_length {q1 q2 : List (Fin 8)} (h : pathLe q1 q2) :
    q1.length ≤ q2.length := by
  obtain ⟨r, rfl⟩ := h
  simp

theorem pathLe_append_inj {path : List (Fin 8)} {i j : Fin 8} {q : List (Fin 8)}
    (h1 : pathLe (path ++ [i]) q) (h2 : pathLe (path ++ [j]) q) : i = j := by
  obtain ⟨r, rfl⟩ := h1
  obtain ⟨r', he⟩ := h2
  rw [List.append_assoc, List.append_assoc] at he
  have hc := List.append_cancel_left he
  simp only [List.cons_append, List.nil_append, List.cons.injEq] at hc
  exact hc.1

/-!  Octant geometry (claim C1): distinct nodes of the same depth have
disjoint interiors, because the eight child boxes of any box tile it and only
overlap on shared faces. -/

/-- Componentwise reading of the closed inclusion test. -/
theorem inClosedBox_iff (b : Box) (p : V3) :
    inClosedBox b p ↔
      b.Origin.x - b.BoxExtent.x ≤ p.x ∧ p.x ≤ b.Origin.x + b.BoxExtent.x ∧
      b.Origin.y - b.BoxExtent.y ≤ p.y ∧ p.y ≤ b.Origin.y + b.BoxExtent.y ∧
      b.Origin.z - b.BoxExtent.z ≤ p.z ∧ p.z ≤ b.Origin.z + b.BoxExtent.z := by
  unfold inClosedBox pointInBox V3.sub V3.add
  simp [and_assoc]

/-- Componentwise reading of the face test. -/
theorem pointInterior_iff (Mn Mx p : V3) :
    pointInterior Mn Mx p = true ↔
      p.x ≠ Mn.x ∧ p.x ≠ Mx.x ∧ p.y ≠ Mn.y ∧ p.y ≠ Mx.y ∧ p.z ≠ Mn.z ∧ p.z ≠ Mx.z := by
  unfold pointInterior
  simp [and_assoc]

/-- An in-box point on none of the faces is strictly interior. -/
theorem interior_strict {b : Box} {p : V3} (hc : inClosedBox b p)
    (hi : pointInterior (V3.sub b.Origin b.BoxExtent) (V3.add b.Origin b.BoxExtent) p = true) :
    inOpenBox b p := by
  rw [inClosedBox_iff] at hc
  rw [pointInterior_iff] at hi
  simp only [V3.sub, V3.add] at hi
  obtain ⟨h1, h2, h3, h4, h5, h6⟩ := hc
  obtain ⟨g1, g2, g3, g4, g5, g6⟩ := hi
  exact ⟨⟨lt_of_le_of_ne h1 (Ne.symm g1), lt_of_le_of_ne h2 g2⟩,
         ⟨lt_of_le_of_ne h3 (Ne.symm g3), lt_of_le_of_ne h4 g4⟩,
         ⟨lt_of_le_of_ne h5 (Ne.symm g5), lt_of_le_of_ne h6 g6⟩⟩

/-- Each octant-offset component is `0` or `1`. -/
theorem octOffset_cases (i : Fin 8) :
    ((octOffset i).x = 0 ∨ (octOffset i).x = 1) ∧
    ((octOffset i).y = 0 ∨ (octOffset i).y = 1) ∧
    ((octOffset i).z = 0 ∨ (octOffset i).z = 1) := by
  unfold octOffset
  refine ⟨?_, ?_, ?_⟩ <;> simp only [] <;> split <;> simp

/-- Distinct octants differ in at least one offset component. -/
theorem octOffset_ne {i j : Fin 8} (hij : i ≠ j) :
    (octOffset i).x ≠ (octOffset j).x ∨ (octOffset i).y ≠ (octOffset j).y ∨
    (octOffset i).z ≠ (octOffset j).z := by
  have h : ∀ i j : Fin 8, i ≠ j →
      (octOffset i).x ≠ (octOffset j).x ∨ (octOffset i).y ≠ (octOffset j).y ∨
      (octOffset i).z ≠ (octOffset j).z := by decide
  exact h i j hij

/-- Child boxes have positive extents when the parent does. -/
theorem posExtent_octant {b : Box} (h : posExtent b) (i : Fin 8) :
    posExtent (octantBox b i) := by
  obtain ⟨hx, hy, hz⟩ := h
  refine ⟨?_, ?_, ?_⟩ <;> simp only [octantBox, V3.half] <;> linarith

/-- Closed nesting: a point in a child box is in the parent box. -/
theorem inClosedBox_octant {b : Box} (hb : posExtent b) {i : Fin 8} {p : V3}
    (h : inClosedBox (octantBox b i) p) : inClosedBox b p := by
  obtain ⟨hbx, hby, hbz⟩ := hb
  obtain ⟨hox, hoy, hoz⟩ := octOffset_cases i
  rw [inClosedBox_iff] at h ⊢
  simp only [octantBox, V3.sub, V3.add, V3.hadamard, V3.half] at h
  obtain ⟨h1, h2, h3, h4, h5, h6⟩ := h
  refine ⟨?_, ?_, ?_, ?_, ?_, ?_⟩
  · rcases hox with he | he <;> rw [he] at h1 <;> linarith
  · rcases hox with he | he <;> rw [he] at h2 <;> linarith
  · rcases hoy with he | he <;> rw [he] at h3 <;> linarith
  · rcases hoy with he | he <;> rw [he] at h4 <;> linarith
  · rcases hoz with he | he <;> rw [he] at h5 <;> linarith
  · rcases hoz with he | he <;> rw [he] at h6 <;> linarith

/-- Open nesting: a point strictly inside a child box is strictly inside the
parent box. -/
theorem inOpenBox_octant {b : Box} (hb : posExtent b) {i : Fin 8} {p : V3}
    (h : inOpenBox (octantBox b i) p) : inOpenBox b p := by
  obtain ⟨hbx, hby, hbz⟩ := hb
  obtain ⟨hox, hoy, hoz⟩ := octOffset_cases i
  unfold inOpenBox at h ⊢
  simp only [octantBox, V3.sub, V3.add, V3.hadamard, V3.half] at h
  obtain ⟨⟨h1, h2⟩, ⟨h3, h4⟩, ⟨h5, h6⟩⟩ := h
  refine ⟨⟨?_, ?_⟩, ⟨?_, ?_⟩, ⟨?_, ?_⟩⟩
  · rcases hox with he | he <;> rw [he] at h1 <;> linarith
  · rcases hox with he | he <;> rw [he] at h2 <;> linarith
  · rcases hoy with he | he <;> rw [he] at h3 <;> linarith
  · rcases hoy with he | he <;> rw [he] at h4 <;> linarith
  · rcases hoz with he | he <;> rw [he] at h5 <;> linarith
  · rcases hoz with he | he <;> rw [he] at h6 <;> linarith

/-- Sibling separation: a point of one octant's closed box is never strictly
inside a different octant of the same parent. -/
theorem octant_sep {b : Box} (hb : posExtent b) {i j : Fin 8} (hij : i ≠ j)
    {p : V3} (hc : inClosedBox (octantBox b i) p)
    (ho : inOpenBox (octantBox b j) p) : False := by
  obtain ⟨hbx, hby, hbz⟩ := hb
  obtain ⟨hoxi, hoyi, hozi⟩ := octOffset_cases i
  obtain ⟨hoxj, hoyj, hozj⟩ := octOffset_cases j
  rw [inClosedBox_iff] at hc
  unfold inOpenBox at ho
  simp only [octantBox, V3.sub, V3.add, V3.hadamard, V3.half] at hc ho
  obtain ⟨h1, h2, h3, h4, h5, h6⟩ := hc
  obtain ⟨⟨g1, g2⟩, ⟨g3, g4⟩, ⟨g5, g6⟩⟩ := ho
  rcases octOffset_ne hij with hd | hd | hd
  · rcases hoxi with he1 | he1 <;> rcases hoxj with he2 | he2
    · exact hd (he1.trans he2.symm)
    · rw [he1] at h1 h2; rw [he2] at g1 g2; linarith
    · rw [he1] at h1 h2; rw [he2] at g1 g2; linarith
    · exact hd (he1.trans he2.symm)
  · rcases hoyi with he1 | he1 <;> rcases hoyj with he2 | he2
    · exact hd (he1.trans he2.symm)
    · rw [he1] at h3 h4; rw [he2] at g3 g4; linarith
    · rw [he1] at h3 h4; rw [he2] at g3 g4; linarith
    · exact hd (he1.trans he2.symm)
  · rcases hozi with he1 | he1 <;> rcases hozj with he2 | he2
    · exact hd (he1.trans he2.symm)
    · rw [he1] at h5 h6; rw [he2] at g5 g6; linarith
    · rw [he1] at h5 h6; rw [he2] at g5 g6; linarith
    · exact hd (he1.trans he2.symm)

theorem pathBox_cons (B : Box) (i : Fin 8) (q : List (Fin 8)) :
    pathBox B (i :: q) = pathBox (octantBox B i) q := rfl

theorem pathBox_append_one (B : Box) (q : List (Fin 8)) (i : Fin 8) :
    pathBox B (q ++ [i]) = octantBox (pathBox B q) i := by
  unfold pathBox
  rw [List.foldl_append]
  rfl

theorem posExtent_pathBox : ∀ (q : List (Fin 8)) {B : Box}, posExtent B →
    posExtent (pathBox B q) := by
  intro q
  induction q with
  | nil => intro B h; exact h
  | cons i r ih => intro B h; exact ih (posExtent_octant h i)

theorem inClosedBox_pathBox : ∀ (q : List (Fin 8)) {B : Box}, posExtent B →
    ∀ {p : V3}, inClosedBox (pathBox B q) p → inClosedBox B p := by
  intro q
  induction q with
  | nil => intro B _ p h; exact h
  | cons i r ih =>
    intro B hB p h
    rw [pathBox_cons] at h
    exact inClosedBox_octant hB (ih (posExtent_octant hB i) h)

theorem inOpenBox_pathBox : ∀ (q : List (Fin 8)) {B : Box}, posExtent B →
    ∀ {p : V3}, inOpenBox (pathBox B q) p → inOpenBox B p := by
  intro q
  induction q with
  | nil => intro B _ p h; exact h
  | cons i r ih =>
    intro B hB p h
    rw [pathBox_cons] at h
    exact inOpenBox_octant hB (ih (posExtent_octant hB i) h)

/-- Same-depth separation: distinct nodes at the same depth never share a
point that is strictly interior to one of them. -/
theorem pathBox_sep : ∀ (q1 q2 : List (Fin 8)), q1.length = q2.length →
    q1 ≠ q2 → ∀ (B : Box), posExtent B → ∀ (p : V3),
    inClosedBox (pathBox B q1) p → inOpenBox (pathBox B q2) p → False := by
  intro q1
  induction q1 with
  | nil =>
    intro q2 hlen hne B hB p hc ho
    cases q2 with
    | nil => exact hne rfl
    | cons j r2 => simp at hlen
  | cons i r1 ih =>
    intro q2 hlen hne B hB p hc ho
    cases q2 with
    | nil => simp at hlen
    | cons j r2 =>
      by_cases hij : i = j
      · subst hij
        have hr : r1 ≠ r2 := fun h => hne (by rw [h])
        rw [pathBox_cons] at hc ho
        exact ih r2 (by simpa using hlen) hr (octantBox B i)
          (posExtent_octant hB i) p hc ho
      · rw [pathBox_cons] at hc ho
        have hc' := inClosedBox_pathBox r1 (posExtent_octant hB i) hc
        have ho' := inOpenBox_pathBox r2 (posExtent_octant hB j) ho
        exact octant_sep hB hij hc' ho'

/-!  The reservation-exclusivity induction (claim C1). -/

/-- Structure eta for boxes, used to align `Subdivide`'s reconstruction of its
box with the path box. -/
theorem boxEta (b : Box) : (⟨b.Origin, b.BoxExtent⟩ : Box) = b := rfl

/-- The fuel-exhaustion fallback is a good builder (it does nothing). -/
theorem noChildBuilder_good (B0 : Box) (P0 : List FPointCloudPoint) :
    GoodBuilder B0 P0 noChildBuilder := by
  intro path pts sibs st hpts hst hfresh
  exact ⟨fun v d h => h,
    ⟨[], by simp [noChildBuilder], fun e he => absurd he (List.not_mem_nil e)⟩, hst⟩

/-- Core step of the exclusivity argument: when a node qualifies, logging its
queries, reserving its accepted points at its depth and appending the matching
events preserves the state invariant.  A new event can collide with an older
same-depth same-vertex event in no way: by injectivity the two events carry
the same point; if the point lies on a face of this node the filter required
its depth bit to be clear while the older event had set it (and bits are never
cleared); if the point is strictly interior to this node the older node's box
— a different box of the same depth — cannot contain it. -/
theorem qualify_inv (B0 : Box) (P0 : List FPointCloudPoint)
    (hinj : ∀ p ∈ P0, ∀ q ∈ P0, p.VertexIndex = q.VertexIndex → p = q)
    (hpos : posExtent B0)
    (path : List (Fin 8)) (pts : List FPointCloudPoint) (st : BuildState)
    (hpts : ∀ p ∈ pts, p ∈ P0)
    (hst : StateInv B0 P0 st)
    (hfresh : ∀ e ∈ st.resEvents, ¬ pathLe path e.path) :
    EventsInv B0 P0
      ((filterPoints st.ReservedPoints path
          (V3.sub (pathBox B0 path).Origin (pathBox B0 path).BoxExtent)
          (V3.add (pathBox B0 path).Origin (pathBox B0 path).BoxExtent) pts).1.foldl
        (fun R p => SetPointUsed R p.VertexIndex path.length) st.ReservedPoints)
      (st.resEvents ++
        (filterPoints st.ReservedPoints path
          (V3.sub (pathBox B0 path).Origin (pathBox B0 path).BoxExtent)
          (V3.add (pathBox B0 path).Origin (pathBox B0 path).BoxExtent) pts).1.map
          (fun p => ResEvent.mk path p)) ∧
    QueriesInv B0 (st.usedQueries ++
      (filterPoints st.ReservedPoints path
        (V3.sub (pathBox B0 path).Origin (pathBox B0 path).BoxExtent)
        (V3.add (pathBox B0 path).Origin (pathBox B0 path).BoxExtent) pts).2) := by
  obtain ⟨⟨hev, hpw⟩, hqu⟩ := hst
  refine ⟨⟨?_, ?_⟩, ?_⟩
  · -- pointwise event invariant
    intro e he
    rcases List.mem_append.mp he with he | he
    · obtain ⟨ha, hb, hc⟩ := hev e he
      exact ⟨ha, hb, foldl_SetPointUsed_mono _ _ _ _ _ hc⟩
    · obtain ⟨p, hp, rfl⟩ := List.mem_map.mp he
      obtain ⟨hm, hb, _⟩ := filterPoints_mem _ _ _ _ pts p hp
      exact ⟨hpts p hm, hb, foldl_SetPointUsed_covers _ _ _ p hp⟩
  · -- pairwise exclusivity
    rw [List.pairwise_append]
    refine ⟨hpw, ?_, ?_⟩
    · -- within the new events: all carry this node's path
      have hall : ∀ (l : List FPointCloudPoint),
          List.Pairwise exclusive (l.map (fun p => ResEvent.mk path p)) := by
        intro l
        induction l with
        | nil => exact List.Pairwise.nil
        | cons a r ihp =>
          simp only [List.map_cons]
          refine List.Pairwise.cons ?_ ihp
          intro e he
          obtain ⟨q, hq, rfl⟩ := List.mem_map.mp he
          intro _ _
          rfl
      exact hall _
    · -- an old event never collides with a new one
      intro e1 he1 e2 he2
      obtain ⟨p, hp, rfl⟩ := List.mem_map.mp he2
      intro hlen hvtx
      exfalso
      obtain ⟨hm, hb, hres⟩ := filterPoints_mem _ _ _ _ pts p hp
      obtain ⟨h1P, h1box, h1used⟩ := hev e1 he1
      have hpp : e1.point = p := hinj e1.point h1P p (hpts p hm) hvtx
      by_cases hi : pointInterior
          (V3.sub (pathBox B0 path).Origin (pathBox B0 path).BoxExtent)
          (V3.add (pathBox B0 path).Origin (pathBox B0 path).BoxExtent)
          p.Location = true
      · -- geometric separation of two distinct same-depth boxes
        have hopen : inOpenBox (pathBox B0 path) p.Location :=
          interior_strict (b := pathBox B0 path) hb hi
        have hclosed : inClosedBox (pathBox B0 e1.path) p.Location := by
          rw [← hpp]
          exact h1box
        have hne : e1.path ≠ path := by
          intro hcontra
          exact hfresh e1 he1 (by rw [hcontra]; exact pathLe_refl path)
        exact pathBox_sep e1.path path hlen hne B0 hpos p.Location hclosed hopen
      · -- bitmap contradiction for a face point
        have hres' := hres (by simpa using hi)
        rw [hpp] at h1used
        rw [show e1.path.length = path.length from hlen] at h1used
        exact absurd (hres'.symm.trans h1used) (by decide)
  · -- query-log invariant
    intro u hu
    rcases List.mem_append.mp hu with hu | hu
    · exact hqu u hu
    · obtain ⟨hupath, hubox, huint⟩ := filterPoints_queries _ _ _ _ pts u hu
      constructor
      · rw [hupath]
        exact hubox
      · rw [hupath]
        exact huint

/-- `Subdivide` over a duplicate-free octant list preserves the state
invariant, only sets bits, and only appends events in the processed
subtrees. -/
theorem Subdivide_good (B0 : Box) (P0 : List FPointCloudPoint)
    (F : BuildFn) (hF : GoodBuilder B0 P0 F) :
    ∀ (octs : List (Fin 8)), octs.Nodup →
    ∀ (path : List (Fin 8)) (pts : List FPointCloudPoint) (acc : List NodeOut)
      (st : BuildState),
      (∀ p ∈ pts, p ∈ P0) →
      StateInv B0 P0 st →
      (∀ e ∈ st.resEvents, ∀ i ∈ octs, ¬ pathLe (path ++ [i]) e.path) →
      (∀ v d, IsPointUsed st.ReservedPoints v d = true →
        IsPointUsed (Subdivide F path (pathBox B0 path).Origin
          (pathBox B0 path).BoxExtent pts octs acc st).2.ReservedPoints v d = true) ∧
      (∃ new, (Subdivide F path (pathBox B0 path).Origin
          (pathBox B0 path).BoxExtent pts octs acc st).2.resEvents =
            st.resEvents ++ new ∧
        ∀ e ∈ new, ∃ i ∈ octs, pathLe (path ++ [i]) e.path) ∧
      StateInv B0 P0 (Subdivide F path (pathBox B0 path).Origin
        (pathBox B0 path).BoxExtent pts octs acc st).2 := by
  intro octs
  induction octs with
  | nil =>
    intro _ path pts acc st hpts hst hfresh
    exact ⟨fun v d h => h,
      ⟨[], by simp [Subdivide], fun e he => absurd he (List.not_mem_nil e)⟩, hst⟩
  | cons i rest ih =>
    intro hnd path pts acc st hpts hst hfresh
    have hnd' := List.nodup_cons.mp hnd
    -- the contract of the child builder at octant `i`
    have hFi := hF (path ++ [i]) pts acc st hpts hst
      (fun e he => hfresh e he i (List.mem_cons_self i rest))
    rw [pathBox_append_one] at hFi
    obtain ⟨hmono1, ⟨new1, hev1, hpre1⟩, hst1⟩ := hFi
    -- freshness of the remaining octants after the child's events
    have hfresh2 : ∀ e ∈ (F (path ++ [i]) (octantBox (pathBox B0 path) i).Origin
        (octantBox (pathBox B0 path) i).BoxExtent pts acc st).2.2.resEvents,
        ∀ j ∈ rest, ¬ pathLe (path ++ [j]) e.path := by
      rw [hev1]
      intro e he j hj hpl
      rcases List.mem_append.mp he with he | he
      · exact hfresh e he j (List.mem_cons_of_mem i hj) hpl
      · have hj_i : j = i := pathLe_append_inj hpl (hpre1 e he)
        subst hj_i
        exact hnd'.1 hj
    have hih := ih hnd'.2 path pts
      (linkChild ((F (path ++ [i]) (octantBox (pathBox B0 path) i).Origin
        (octantBox (pathBox B0 path) i).BoxExtent pts acc st)).2.1
        ((F (path ++ [i]) (octantBox (pathBox B0 path) i).Origin
        (octantBox (pathBox B0 path) i).BoxExtent pts acc st)).1)
      ((F (path ++ [i]) (octantBox (pathBox B0 path) i).Origin
        (octantBox (pathBox B0 path) i).BoxExtent pts acc st)).2.2
      hpts hst1 hfresh2
    obtain ⟨hmono2, ⟨new2, hev2, hpre2⟩, hst2⟩ := hih
    simp only [Subdivide, boxEta]
    refine ⟨?_, ⟨new1 ++ new2, ?_, ?_⟩, ?_⟩
    · intro v d h
      exact hmono2 v d (hmono1 v d h)
    · rw [hev2, hev1, List.append_assoc]
    · intro e he
      rcases List.mem_append.mp he with he | he
      · exact ⟨i, List.mem_cons_self i rest, hpre1 e he⟩
      · obtain ⟨j, hj, hp⟩ := hpre2 e he
        exact ⟨j, List.mem_cons_of_mem i hj, hp⟩
    · exact hst2

/-- `Node::Build` preserves the good-builder contract. -/
theorem Build_good (t : Ctx) (B0 : Box) (P0 : List FPointCloudPoint)
    (hinj : ∀ p ∈ P0, ∀ q ∈ P0, p.VertexIndex = q.VertexIndex → p = q)
    (hpos : posExtent B0) (hord : t.RootOrder.Nodup)
    (F : BuildFn) (hF : GoodBuilder B0 P0 F) : GoodBuilder B0 P0 (Build t F) := by
  intro path pts sibs st hpts hst hfresh
  obtain ⟨hEI, hQI⟩ := qualify_inv B0 P0 hinj hpos path pts st hpts hst hfresh
  simp only [Build]
  by_cases hq : t.MinimumNodePointCount ≤
      (filterPoints st.ReservedPoints path
        (V3.sub (pathBox B0 path).Origin (pathBox B0 path).BoxExtent)
        (V3.add (pathBox B0 path).Origin (pathBox B0 path).BoxExtent) pts).1.length
  · rw [if_pos hq]
    -- preconditions of the subdivision, at the post-reservation state
    have hpts3 : ∀ p ∈ (filterPoints st.ReservedPoints path
        (V3.sub (pathBox B0 path).Origin (pathBox B0 path).BoxExtent)
        (V3.add (pathBox B0 path).Origin (pathBox B0 path).BoxExtent) pts).1, p ∈ P0 :=
      fun p hp => hpts p (filterPoints_mem _ _ _ _ pts p hp).1
    by_cases hlt : path.length < t.MaxLOD
    · rw [if_pos hlt]
      have hnd : (octOrder t path).Nodup := by
        unfold octOrder
        split
        · exact hord
        · decide
      have hsub := Subdivide_good B0 P0 F hF (octOrder t path) hnd path
        (filterPoints st.ReservedPoints path
          (V3.sub (pathBox B0 path).Origin (pathBox B0 path).BoxExtent)
          (V3.add (pathBox B0 path).Origin (pathBox B0 path).BoxExtent) pts).1 []
        (qualifiedState t path
          (filterPoints st.ReservedPoints path
            (V3.sub (pathBox B0 path).Origin (pathBox B0 path).BoxExtent)
            (V3.add (pathBox B0 path).Origin (pathBox B0 path).BoxExtent) pts).1
          (filterPoints st.ReservedPoints path
            (V3.sub (pathBox B0 path).Origin (pathBox B0 path).BoxExtent)
            (V3.add (pathBox B0 path).Origin (pathBox B0 path).BoxExtent) pts).2
          (BuildIBCache t (t.MaxLOD - path.length) (!path.isEmpty)
            (filterPoints st.ReservedPoints path
              (V3.sub (pathBox B0 path).Origin (pathBox B0 path).BoxExtent)
              (V3.add (pathBox B0 path).Origin (pathBox B0 path).BoxExtent) pts).1
            sibs).Prims st)
        hpts3 ⟨hEI, hQI⟩ ?_
      · obtain ⟨hmono2, ⟨new2, hev2, hpre2⟩, hst2⟩ := hsub
        refine ⟨?_, ?_, hst2⟩
        · intro v d h
          exact hmono2 v d (foldl_SetPointUsed_mono _ _ _ _ _ h)
        · refine ⟨(filterPoints st.ReservedPoints path
            (V3.sub (pathBox B0 path).Origin (pathBox B0 path).BoxExtent)
            (V3.add (pathBox B0 path).Origin (pathBox B0 path).BoxExtent) pts).1.map
              (fun p => ResEvent.mk path p) ++ new2, ?_, ?_⟩
          · rw [hev2]
            simp [qualifiedState, List.append_assoc]
          · intro e he
            rcases List.mem_append.mp he with he | he
            · obtain ⟨p, hp, rfl⟩ := List.mem_map.mp he
              exact pathLe_refl path
            · obtain ⟨j, hj, hp⟩ := hpre2 e he
              exact pathLe_extend hp
      · -- freshness at the post-reservation state
        intro e he j hj hpl
        rcases List.mem_append.mp he with he | he
        · exact hfresh e he (pathLe_extend hpl)
        · obtain ⟨p, hp, rfl⟩ := List.mem_map.mp he
          have := pathLe_length hpl
          simp at this
    · rw [if_neg hlt]
      refine ⟨?_, ?_, ⟨hEI, hQI⟩⟩
      · intro v d h
        exact foldl_SetPointUsed_mono _ _ _ _ _ h
      · refine ⟨(filterPoints st.ReservedPoints path
          (V3.sub (pathBox B0 path).Origin (pathBox B0 path).BoxExtent)
          (V3.add (pathBox B0 path).Origin (pathBox B0 path).BoxExtent) pts).1.map
            (fun p => ResEvent.mk path p), rfl, ?_⟩
        intro e he
        obtain ⟨p, hp, rfl⟩ := List.mem_map.mp he
        exact pathLe_refl path
  · rw [if_neg hq]
    refine ⟨fun v d h => h,
      ⟨[], by simp, fun e he => absurd he (List.not_mem_nil e)⟩, ?_⟩
    obtain ⟨hev, hpw⟩ := (hst).1
    refine ⟨⟨hev, hpw⟩, ?_⟩
    intro u hu
    rcases List.mem_append.mp hu with hu | hu
    · exact hst.2 u hu
    · obtain ⟨hupath, hubox, huint⟩ := filterPoints_queries _ _ _ _ pts u hu
      constructor
      · rw [hupath]
        exact hubox
      · rw [hupath]
        exact huint

/-- The fuelled builder satisfies the good-builder contract. -/
theorem BuildNode_good (t : Ctx) (B0 : Box) (P0 : List FPointCloudPoint)
    (hinj : ∀ p ∈ P0, ∀ q ∈ P0, p.VertexIndex = q.VertexIndex → p = q)
    (hpos : posExtent B0) (hord : t.RootOrder.Nodup) :
    ∀ fuel, GoodBuilder B0 P0 (BuildNode t fuel) := by
  intro fuel
  induction fuel with
  | zero => exact Build_good t B0 P0 hinj hpos hord noChildBuilder (noChildBuilder_good B0 P0)
  | succ f ih => exact Build_good t B0 P0 hinj hpos hord (BuildNode t f) ih

/-!  Unconditional facts: the build only sets reservation bits and only
appends reservation events (at any call site, with any arguments). -/

/-- `Subdivide` only sets bits and appends events, given a builder that
does. -/
theorem Subdivide_tame (F : BuildFn)
    (hF : ∀ (path : List (Fin 8)) (O E : V3) (pts : List FPointCloudPoint)
      (sibs : List NodeOut) (st : BuildState),
      (∀ v d, IsPointUsed st.ReservedPoints v d = true →
        IsPointUsed (F path O E pts sibs st).2.2.ReservedPoints v d = true) ∧
      (∃ new, (F path O E pts sibs st).2.2.resEvents = st.resEvents ++ new)) :
    ∀ (octs path : List (Fin 8)) (pO pE : V3) (pts : List FPointCloudPoint)
      (acc : List NodeOut) (st : BuildState),
      (∀ v d, IsPointUsed st.ReservedPoints v d = true →
        IsPointUsed (Subdivide F path pO pE pts octs acc st).2.ReservedPoints v d = true) ∧
      (∃ new, (Subdivide F path pO pE pts octs acc st).2.resEvents =
        st.resEvents ++ new) := by
  intro octs
  induction octs with
  | nil =>
    intro path pO pE pts acc st
    exact ⟨fun v d h => h, ⟨[], by simp [Subdivide]⟩⟩
  | cons i rest ih =>
    intro path pO pE pts acc st
    obtain ⟨hm1, ⟨n1, he1⟩⟩ := hF (path ++ [i]) (octantBox ⟨pO, pE⟩ i).Origin
      (octantBox ⟨pO, pE⟩ i).BoxExtent pts acc st
    obtain ⟨hm2, ⟨n2, he2⟩⟩ := ih path pO pE pts
      (linkChild (F (path ++ [i]) (octantBox ⟨pO, pE⟩ i).Origin
        (octantBox ⟨pO, pE⟩ i).BoxExtent pts acc st).2.1
        (F (path ++ [i]) (octantBox ⟨pO, pE⟩ i).Origin
        (octantBox ⟨pO, pE⟩ i).BoxExtent pts acc st).1)
      (F (path ++ [i]) (octantBox ⟨pO, pE⟩ i).Origin
        (octantBox ⟨pO, pE⟩ i).BoxExtent pts acc st).2.2
    simp only [Subdivide]
    exact ⟨fun v d h => hm2 v d (hm1 v d h),
      ⟨n1 ++ n2, by rw [he2, he1, List.append_assoc]⟩⟩

/-- `Build` only sets bits and appends events, given a child builder that
does. -/
theorem Build_tame (t : Ctx) (F : BuildFn)
    (hF : ∀ (path : List (Fin 8)) (O E : V3) (pts : List FPointCloudPoint)
      (sibs : List NodeOut) (st : BuildState),
      (∀ v d, IsPointUsed st.ReservedPoints v d = true →
        IsPointUsed (F path O E pts sibs st).2.2.ReservedPoints v d = true) ∧
      (∃ new, (F path O E pts sibs st).2.2.resEvents = st.resEvents ++ new)) :
    ∀ (path : List (Fin 8)) (O E : V3) (pts : List FPointCloudPoint)
      (sibs : List NodeOut) (st : BuildState),
      (∀ v d, IsPointUsed st.ReservedPoints v d = true →
        IsPointUsed (Build t F path O E pts sibs st).2.2.ReservedPoints v d = true) ∧
      (∃ new, (Build t F path O E pts sibs st).2.2.resEvents = st.resEvents ++ new) := by
  intro path O E pts sibs st
  simp only [Build]
  set fr := filterPoints st.ReservedPoints path (V3.sub O E) (V3.add O E) pts with hfr
  by_cases hq : t.MinimumNodePointCount ≤ fr.1.length
  · rw [if_pos hq]
    by_cases hlt : path.length < t.MaxLOD
    · rw [if_pos hlt]
      obtain ⟨hm2, ⟨n2, he2⟩⟩ := Subdivide_tame F hF (octOrder t path) path O E fr.1 []
        (qualifiedState t path fr.1 fr.2
          (BuildIBCache t (t.MaxLOD - path.length) (!path.isEmpty) fr.1 sibs).Prims st)
      refine ⟨fun v d h => hm2 v d (foldl_SetPointUsed_mono _ _ _ _ _ h),
        ⟨fr.1.map (fun p => ResEvent.mk path p) ++ n2, ?_⟩⟩
      rw [he2]
      simp [qualifiedState, List.append_assoc]
    · rw [if_neg hlt]
      exact ⟨fun v d h => foldl_SetPointUsed_mono _ _ _ _ _ h,
        ⟨fr.1.map (fun p => ResEvent.mk path p), rfl⟩⟩
  · rw [if_neg hq]
    exact ⟨fun v d h => h, ⟨[], by simp⟩⟩

/-- The fuelled builder only sets bits and appends events. -/
theorem BuildNode_tame (t : Ctx) :
    ∀ (fuel : ℕ) (path : List (Fin 8)) (O E : V3) (pts : List FPointCloudPoint)
      (sibs : List NodeOut) (st : BuildState),
      (∀ v d, IsPointUsed st.ReservedPoints v d = true →
        IsPointUsed (BuildNode t fuel path O E pts sibs st).2.2.ReservedPoints v d = true) ∧
      (∃ new, (BuildNode t fuel path O E pts sibs st).2.2.resEvents =
        st.resEvents ++ new) := by
  intro fuel
  induction fuel with
  | zero =>
    exact Build_tame t noChildBuilder
      (fun path O E pts sibs st => ⟨fun v d h => h, ⟨[], by simp [noChildBuilder]⟩⟩)
  | succ f ih => exact Build_tame t (BuildNode t f) ih

/-- A qualifying `Build` marks every accepted point reserved at its depth:
one `SetPointUsed` ghost event per accepted point is in the final log, and the
point's depth bit is set in the final bitmap. -/
theorem Build_marks_gen (t : Ctx) (F : BuildFn)
    (hF : ∀ (path : List (Fin 8)) (O E : V3) (pts : List FPointCloudPoint)
      (sibs : List NodeOut) (st : BuildState),
      (∀ v d, IsPointUsed st.ReservedPoints v d = true →
        IsPointUsed (F path O E pts sibs st).2.2.ReservedPoints v d = true) ∧
      (∃ new, (F path O E pts sibs st).2.2.resEvents = st.resEvents ++ new)) :
    ∀ (path : List (Fin 8)) (O E : V3) (pts : List FPointCloudPoint)
      (sibs : List NodeOut) (st : BuildState),
      t.MinimumNodePointCount ≤
        (filterPoints st.ReservedPoints path (V3.sub O E) (V3.add O E) pts).1.length →
      ∀ p ∈ (filterPoints st.ReservedPoints path (V3.sub O E) (V3.add O E) pts).1,
        ResEvent.mk path p ∈ (Build t F path O E pts sibs st).2.2.resEvents ∧
        IsPointUsed (Build t F path O E pts sibs st).2.2.ReservedPoints
          p.VertexIndex path.length = true := by
  intro path O E pts sibs st hq p hp
  simp only [Build]
  set fr := filterPoints st.ReservedPoints path (V3.sub O E) (V3.add O E) pts with hfr
  rw [if_pos hq]
  by_cases hlt : path.length < t.MaxLOD
  · rw [if_pos hlt]
    obtain ⟨hm2, ⟨n2, he2⟩⟩ := Subdivide_tame F hF (octOrder t path) path O E fr.1 []
      (qualifiedState t path fr.1 fr.2
        (BuildIBCache t (t.MaxLOD - path.length) (!path.isEmpty) fr.1 sibs).Prims st)
    constructor
    · rw [he2]
      simp only [qualifiedState]
      exact List.mem_append_left _ (List.mem_append_right _ (List.mem_map_of_mem _ hp))
    · exact hm2 _ _ (foldl_SetPointUsed_covers _ _ _ p hp)
  · rw [if_neg hlt]
    constructor
    · exact List.mem_append_right _ (List.mem_map_of_mem _ hp)
    · exact foldl_SetPointUsed_covers _ _ _ p hp

/-!  Projections of a successful and a failed `Rebuild` result. -/

theorem rebuildOk_error (a : AssetParams) (hg : a.LODCount - 1 < 0) :
    rebuildOk a = default := by
  unfold rebuildOk Rebuild RebuildSched
  rw [if_pos hg]

theorem rebuildOk_resEvents (a : AssetParams) (hg : ¬ a.LODCount - 1 < 0) :
    (rebuildOk a).resEvents =
      (BuildNode (rebuildCtx stdOctants a) (assetMaxLOD a + 1) [] (rootBox a).Origin
        (rootBox a).BoxExtent a.Points [] (initialState a)).2.2.resEvents := by
  unfold rebuildOk Rebuild RebuildSched
  rw [if_neg hg]

theorem rebuildOk_usedQueries (a : AssetParams) (hg : ¬ a.LODCount - 1 < 0) :
    (rebuildOk a).usedQueries =
      (BuildNode (rebuildCtx stdOctants a) (assetMaxLOD a + 1) [] (rootBox a).Origin
        (rootBox a).BoxExtent a.Points [] (initialState a)).2.2.usedQueries := by
  unfold rebuildOk Rebuild RebuildSched
  rw [if_neg hg]

/-!  The fine-grained root fan-out: agreement with the serialised model on
whole-task schedules, and the filter/reserve race (C1). -/

/-- `Node::Build` is definitionally its filter loop followed by its commit
phase. -/
theorem Build_eq_filter_commit (t : Ctx) (recChild : BuildFn)
    (path : List (Fin 8)) (O E : V3) (pts : List FPointCloudPoint)
    (sibs : List NodeOut) (st : BuildState) :
    Build t recChild path O E pts sibs st =
      buildCommit t recChild path O E
        (filterPoints st.ReservedPoints path (V3.sub O E) (V3.add O E) pts)
        sibs st := rfl

/-- A root child's build (fuel `MaxLOD`, as run by the root's `Subdivide`) is
its filter loop followed by its commit phase with the inner builder
`childRec`. -/
theorem BuildNode_eq_filter_commit (t : Ctx) (i : Fin 8) (O E : V3)
    (pts : List FPointCloudPoint) (sibs : List NodeOut) (st : BuildState) :
    BuildNode t t.MaxLOD [i] O E pts sibs st =
      buildCommit t (childRec t) [i] O E
        (filterPoints st.ReservedPoints [i] (V3.sub O E) (V3.add O E) pts)
        sibs st := by
  have hc : BuildNode t t.MaxLOD = Build t (childRec t) := by
    unfold childRec
    cases t.MaxLOD with
    | zero => rfl
    | succ m => rfl
  rw [hc]
  exact Build_eq_filter_commit t (childRec t) [i] O E pts sibs st

/-- A filter event buffers the task's filter result, computed against the
bitmap of this moment. -/
theorem fineStep_filter_buf (t : Ctx) (B : Box) (pts : List FPointCloudPoint)
    (fs : FineState) (i : Fin 8) :
    (fineStep t B pts fs (RootEv.filterEv i)).buf i =
      some (filterPoints fs.st.ReservedPoints [i]
        (V3.sub (octantBox B i).Origin (octantBox B i).BoxExtent)
        (V3.add (octantBox B i).Origin (octantBox B i).BoxExtent) pts) := by
  simp [fineStep]

/-- A commit event with a buffered filter result runs the task's remainder and
links the produced child. -/
theorem fineStep_commit_some (t : Ctx) (B : Box) (pts : List FPointCloudPoint)
    (fs : FineState) (i : Fin 8) (fr : List FPointCloudPoint × List UsedQuery)
    (h : fs.buf i = some fr) :
    fineStep t B pts fs (RootEv.commitEv i) =
      ⟨(buildCommit t (childRec t) [i] (octantBox B i).Origin
          (octantBox B i).BoxExtent fr fs.kids fs.st).2.2,
       fun j => if j = i then none else fs.buf j,
       linkChild (buildCommit t (childRec t) [i] (octantBox B i).Origin
           (octantBox B i).BoxExtent fr fs.kids fs.st).2.1
         (buildCommit t (childRec t) [i] (octantBox B i).Origin
           (octantBox B i).BoxExtent fr fs.kids fs.st).1⟩ := by
  simp only [fineStep, h]

/-- On a whole-task serialised schedule the fine-grained fan-out coincides
with the serialised `Subdivide` of the root, for every initial task buffer. -/
theorem fineRun_serial (t : Ctx) (B : Box) (pts : List FPointCloudPoint) :
    ∀ (ord : List (Fin 8)) (buf : Fin 8 → Option (List FPointCloudPoint × List UsedQuery))
      (kids : List NodeOut) (st : BuildState),
      (fineRun t B pts (serialSched ord) ⟨st, buf, kids⟩).st =
        (Subdivide (BuildNode t t.MaxLOD) [] B.Origin B.BoxExtent pts ord kids st).2 ∧
      (fineRun t B pts (serialSched ord) ⟨st, buf, kids⟩).kids =
        (Subdivide (BuildNode t t.MaxLOD) [] B.Origin B.BoxExtent pts ord kids st).1 := by
  intro ord
  induction ord with
  | nil => intro buf kids st; exact ⟨rfl, rfl⟩
  | cons i rest ih =>
    intro buf kids st
    have hfb := fineStep_filter_buf t B pts ⟨st, buf, kids⟩ i
    have hcom := fineStep_commit_some t B pts
      (fineStep t B pts ⟨st, buf, kids⟩ (RootEv.filterEv i)) i _ hfb
    have hrun : fineRun t B pts (serialSched (i :: rest)) ⟨st, buf, kids⟩ =
        fineRun t B pts (serialSched rest)
          (fineStep t B pts (fineStep t B pts ⟨st, buf, kids⟩ (RootEv.filterEv i))
            (RootEv.commitEv i)) := rfl
    have hkst : (fineStep t B pts ⟨st, buf, kids⟩ (RootEv.filterEv i)).st = st := rfl
    have hkk : (fineStep t B pts ⟨st, buf, kids⟩ (RootEv.filterEv i)).kids = kids := rfl
    rw [hkst, hkk] at hcom
    rw [hrun, hcom]
    have hmain := ih
      (fun j => if j = i then none
        else (fineStep t B pts ⟨st, buf, kids⟩ (RootEv.filterEv i)).buf j)
      (linkChild (buildCommit t (childRec t) [i] (octantBox B i).Origin
          (octantBox B i).BoxExtent
          (filterPoints st.ReservedPoints [i]
            (V3.sub (octantBox B i).Origin (octantBox B i).BoxExtent)
            (V3.add (octantBox B i).Origin (octantBox B i).BoxExtent) pts)
          kids st).2.1
        (buildCommit t (childRec t) [i] (octantBox B i).Origin
          (octantBox B i).BoxExtent
          (filterPoints st.ReservedPoints [i]
            (V3.sub (octantBox B i).Origin (octantBox B i).BoxExtent)
            (V3.add (octantBox B i).Origin (octantBox B i).BoxExtent) pts)
          kids st).1)
      ((buildCommit t (childRec t) [i] (octantBox B i).Origin
          (octantBox B i).BoxExtent
          (filterPoints st.ReservedPoints [i]
            (V3.sub (octantBox B i).Origin (octantBox B i).BoxExtent)
            (V3.add (octantBox B i).Origin (octantBox B i).BoxExtent) pts)
          kids st).2.2)
    have hsub : Subdivide (BuildNode t t.MaxLOD) [] B.Origin B.BoxExtent pts
        (i :: rest) kids st =
        Subdivide (BuildNode t t.MaxLOD) [] B.Origin B.BoxExtent pts rest
          (linkChild (buildCommit t (childRec t) [i] (octantBox B i).Origin
              (octantBox B i).BoxExtent
              (filterPoints st.ReservedPoints [i]
                (V3.sub (octantBox B i).Origin (octantBox B i).BoxExtent)
                (V3.add (octantBox B i).Origin (octantBox B i).BoxExtent) pts)
              kids st).2.1
            (buildCommit t (childRec t) [i] (octantBox B i).Origin
              (octantBox B i).BoxExtent
              (filterPoints st.ReservedPoints [i]
                (V3.sub (octantBox B i).Origin (octantBox B i).BoxExtent)
                (V3.add (octantBox B i).Origin (octantBox B i).BoxExtent) pts)
              kids st).1)
          (buildCommit t (childRec t) [i] (octantBox B i).Origin
              (octantBox B i).BoxExtent
              (filterPoints st.ReservedPoints [i]
                (V3.sub (octantBox B i).Origin (octantBox B i).BoxExtent)
                (V3.add (octantBox B i).Origin (octantBox B i).BoxExtent) pts)
              kids st).2.2 := by
      rw [show Subdivide (BuildNode t t.MaxLOD) [] B.Origin B.BoxExtent pts
          (i :: rest) kids st =
          Subdivide (BuildNode t t.MaxLOD) [] B.Origin B.BoxExtent pts rest
            (linkChild (BuildNode t t.MaxLOD [i] (octantBox B i).Origin
                (octantBox B i).BoxExtent pts kids st).2.1
              (BuildNode t t.MaxLOD [i] (octantBox B i).Origin
                (octantBox B i).BoxExtent pts kids st).1)
            (BuildNode t t.MaxLOD [i] (octantBox B i).Origin
              (octantBox B i).BoxExtent pts kids st).2.2 from rfl]
      rw [BuildNode_eq_filter_commit]
    rw [hsub]
    exact ⟨hmain.1, hmain.2⟩

/-- On the serialised source-order schedule the fine-grained rebuild of the
race asset produces exactly the reservation events of `Rebuild`, and a point on
a shared octant face is reserved once. -/
theorem fineRebuild_serial_race :
    (fineRebuild stdOctants raceAsset (serialSched stdOctants)).st.resEvents =
      (rebuildOk raceAsset).resEvents ∧
    (fineRebuild stdOctants raceAsset (serialSched stdOctants)).st.resEvents =
      [ResEvent.mk [] racePoint, ResEvent.mk [0] racePoint] := by
  constructor
  · decide
  · decide

/-- C1 counterexample: the filter's `IsPointUsed` check (line 63) runs outside
the critical section, so in the schedule where the eight root tasks all run
their filter loops before any of them applies its reservations, the point
lying exactly on the shared face of root octants 0 and 1 is accepted — and
then reserved — by both: the reservation log contains two events at depth 1
with the same vertex index but different reserving nodes, violating the
claimed per-depth exclusivity. -/
theorem C1_reservation_exclusive_cex :
    ResEvent.mk [0] racePoint ∈ (fineRebuild stdOctants raceAsset raceSched).st.resEvents ∧
    ResEvent.mk [1] racePoint ∈ (fineRebuild stdOctants raceAsset raceSched).st.resEvents ∧
    (ResEvent.mk [0] racePoint).path.length = (ResEvent.mk [1] racePoint).path.length ∧
    (ResEvent.mk [0] racePoint).point.VertexIndex =
      (ResEvent.mk [1] racePoint).point.VertexIndex ∧
    (ResEvent.mk [0] racePoint).path ≠ (ResEvent.mk [1] racePoint).path ∧
    ¬ List.Pairwise exclusive (fineRebuild stdOctants raceAsset raceSched).st.resEvents := by
  have hl : (fineRebuild stdOctants raceAsset raceSched).st.resEvents =
      [ResEvent.mk [] racePoint, ResEvent.mk [0] racePoint,
       ResEvent.mk [1] racePoint] := by decide
  refine ⟨by rw [hl]; simp, by rw [hl]; simp, rfl, rfl, by decide, ?_⟩
  intro h
  rw [hl] at h
  have h2 := (List.pairwise_cons.mp (List.pairwise_cons.mp h).2).1
    (ResEvent.mk [1] racePoint) (by simp)
  exact absurd (h2 rfl rfl) (by decide)

/-- C1 (amended): in the whole-task serialised build — each root task's filter
runs after the previously completed tasks' reservations are applied, as in the
serialised model `Rebuild`, and as always holds below the root where
subdivision is sequential — no point index is reserved by more than one node
at any depth: the reservation log is pairwise exclusive, two `SetPointUsed`
calls at the same depth for the same vertex index can only come from the same
node.  Moreover (the claim's mechanism, valid under every schedule): every
`IsPointUsed` reservation check made by a filter concerns a point lying on its
node's box faces (interior points are never subject to the check); a face
point is included in a node's filtered list only if it was not already
reserved at that depth; and a qualifying node's accepted points are then all
marked reserved at its depth. -/
theorem C1_reservation_exclusive_amended (a : AssetParams)
    (hinj : ∀ p ∈ a.Points, ∀ q ∈ a.Points, p.VertexIndex = q.VertexIndex → p = q)
    (hpos : 0 < a.BoundsExtent.maxComp) :
    List.Pairwise exclusive (rebuildOk a).resEvents ∧
    (∀ u ∈ (rebuildOk a).usedQueries,
      pointInterior
        (V3.sub (pathBox (rootBox a) u.path).Origin (pathBox (rootBox a) u.path).BoxExtent)
        (V3.add (pathBox (rootBox a) u.path).Origin (pathBox (rootBox a) u.path).BoxExtent)
        u.point.Location = false) ∧
    (∀ (R : ℕ → ℕ) (path : List (Fin 8)) (Mn Mx : V3)
      (pts : List FPointCloudPoint) (p : FPointCloudPoint),
      p ∈ (filterPoints R path Mn Mx pts).1 →
      pointInterior Mn Mx p.Location = false →
      IsPointUsed R p.VertexIndex path.length = false) ∧
    (∀ (t : Ctx) (fuel : ℕ) (path : List (Fin 8)) (O E : V3)
      (pts : List FPointCloudPoint) (sibs : List NodeOut) (st : BuildState),
      t.MinimumNodePointCount ≤
        (filterPoints st.ReservedPoints path (V3.sub O E) (V3.add O E) pts).1.length →
      ∀ p ∈ (filterPoints st.ReservedPoints path (V3.sub O E) (V3.add O E) pts).1,
        ResEvent.mk path p ∈ (BuildNode t fuel path O E pts sibs st).2.2.resEvents ∧
        IsPointUsed (BuildNode t fuel path O E pts sibs st).2.2.ReservedPoints
          p.VertexIndex path.length = true) := by
  have hpos' : posExtent (rootBox a) := ⟨hpos, hpos, hpos⟩
  have hstd : List.Nodup stdOctants := by decide
  have hinit : StateInv (rootBox a) a.Points (initialState a) :=
    ⟨⟨fun e he => absurd he (List.not_mem_nil e), List.Pairwise.nil⟩,
     fun u hu => absurd hu (List.not_mem_nil u)⟩
  refine ⟨?_, ?_, ?_, ?_⟩
  · by_cases hg : a.LODCount - 1 < 0
    · rw [rebuildOk_error a hg]
      exact List.Pairwise.nil
    · rw [rebuildOk_resEvents a hg]
      have hG := BuildNode_good (rebuildCtx stdOctants a) (rootBox a) a.Points hinj hpos'
        hstd (assetMaxLOD a + 1) [] a.Points [] (initialState a)
        (fun p hp => hp) hinit (fun e he => absurd he (List.not_mem_nil e))
      exact hG.2.2.1.2
  · by_cases hg : a.LODCount - 1 < 0
    · rw [rebuildOk_error a hg]
      intro u hu
      exact absurd hu (List.not_mem_nil u)
    · rw [rebuildOk_usedQueries a hg]
      have hG := BuildNode_good (rebuildCtx stdOctants a) (rootBox a) a.Points hinj hpos'
        hstd (assetMaxLOD a + 1) [] a.Points [] (initialState a)
        (fun p hp => hp) hinit (fun e he => absurd he (List.not_mem_nil e))
      intro u hu
      exact (hG.2.2.2 u hu).2
  · intro R path Mn Mx pts p hp hface
    exact (filterPoints_mem R path Mn Mx pts p hp).2.2 hface
  · intro t fuel
    cases fuel with
    | zero =>
      exact Build_marks_gen t noChildBuilder
        (fun path O E pts sibs st => ⟨fun v d h => h, ⟨[], by simp [noChildBuilder]⟩⟩)
    | succ f => exact Build_marks_gen t (BuildNode t f) (BuildNode_tame t f)

/-- C1 witness: the amended exclusivity theorem applied to the concrete
two-octant asset (injective vertex indices, positive bounds). -/
theorem C1_reservation_exclusive_amended_witness :
    List.Pairwise exclusive (rebuildOk assetTwoOctants).resEvents :=
  (C1_reservation_exclusive_amended assetTwoOctants (by decide) (by decide)).1

end PCO
